import Mathlib

/-!
Shallow embedding of the relay-tower core from `src/main.py` (class `CityGrid`).

Python integers are modelled as `Int` (coordinates, ranges, budgets, costs),
grid cell indices as `Nat`.  The numpy random draws of the constructor are
modelled as an explicit oracle `rand : Nat → Nat → ℚ` (only the comparison
`rand > p` matters, so rationals are a faithful stand-in for the float
values).  The `networkx` graph is modelled as a symmetric adjacency function
`Nat → Nat → Option Int` (edge weight lookup), which matches the library's
undirected adjacency-dict storage with last-write-wins weights.
-/

/-- A placed tower, the tuple `(x, y, range)` appended by `place_tower`. -/
structure Tower where
  x : Int
  y : Int
  r : Int
deriving DecidableEq, Repr

/-- A tower type dictionary `{'range': _, 'coverage': _, 'cost': _}` as passed
to `optimize_tower_placement`. -/
structure TowerType where
  range : Int
  coverage : Int
  cost : Int
deriving DecidableEq, Repr

/-- The `CityGrid` object state: dimensions `n × m`, the boolean passability
matrix `grid` (`True` = free cell), and the list of placed towers. -/
structure CityGrid where
  n : Nat
  m : Nat
  grid : Nat → Nat → Bool
  towers : List Tower

/-- `CityGrid.__init__`: `self.grid = np.random.rand(n, m) > obstructed_probability`.
The random draws are the oracle `rand`; a cell is passable iff its draw is
strictly greater than the obstruction probability.  The constructor takes a
density parameter and derives the passability matrix itself; it has no
boolean-matrix parameter. -/
def CityGrid.init (n m : Nat) (obstructed_probability : ℚ) (rand : Nat → Nat → ℚ) :
    CityGrid :=
  { n := n, m := m, grid := fun x y => decide (obstructed_probability < rand x y),
    towers := [] }

/-- Modelled from the spec: the construction entry point the spec prescribes,
which "accepts `rows`, `cols`, and a precomputed boolean obstruction matrix".
This definition follows the spec's words and exists to be compared with the
source constructor `CityGrid.init`; it is absent from the source. -/
def gridOfMatrix (n m : Nat) (passable : Nat → Nat → Bool) : CityGrid :=
  { n := n, m := m, grid := passable, towers := [] }

/-- The random-generation layer the source constructor performs inline:
cell `(x, y)` is passable iff `rand x y > p`. -/
def generatePassable (p : ℚ) (rand : Nat → Nat → ℚ) : Nat → Nat → Bool :=
  fun x y => decide (p < rand x y)

/-- `CityGrid.place_tower`: appends `(x, y, range)` iff
`0 <= x < self.n and 0 <= y < self.m and self.grid[x][y]`; otherwise the
call silently leaves the object unchanged. -/
def place_tower (g : CityGrid) (x y r : Int) : CityGrid :=
  if 0 ≤ x ∧ x < (g.n : Int) ∧ 0 ≤ y ∧ y < (g.m : Int) ∧ g.grid x.toNat y.toNat then
    { g with towers := g.towers ++ [⟨x, y, r⟩] }
  else g

/-- The placement guard of `place_tower` as a proposition. -/
def PlaceOK (g : CityGrid) (x y : Int) : Prop :=
  0 ≤ x ∧ x < (g.n : Int) ∧ 0 ≤ y ∧ y < (g.m : Int) ∧ g.grid x.toNat y.toNat

instance (g : CityGrid) (x y : Int) : Decidable (PlaceOK g x y) := by
  unfold PlaceOK; infer_instance

/-- `distance = (x - tx) ** 2 + (y - ty) ** 2` for a scanned cell `(x, y)`
against a tower. -/
def cellDist (x y : Nat) (t : Tower) : Int :=
  ((x : Int) - t.x) ^ 2 + ((y : Int) - t.y) ^ 2

/-- The `total_coverage` counter computed by the optimizer's scan: the number
of towers whose squared distance to `(x, y)` is at most their squared range. -/
def coverageCount (ts : List Tower) (x y : Nat) : Nat :=
  ts.countP (fun t => decide (cellDist x y t ≤ t.r ^ 2))

/-- The row-major cell enumeration `for x in range(n): for y in range(m)`. -/
def rowMajor (n m : Nat) : List (Nat × Nat) :=
  (List.range n).flatMap (fun x => (List.range m).map (fun y => (x, y)))

/-- The first cell in row-major order that is passable and has zero coverage
against the current towers. -/
def firstUncovered (g : CityGrid) : Option (Nat × Nat) :=
  (rowMajor g.n g.m).find?
    (fun c => g.grid c.1 c.2 && coverageCount g.towers c.1 c.2 == 0)

/-- The mutable locals of one scan of the optimizer's nested cell loops:
`best_tower`, `best_coverage`, `best_distance`, plus the binding state of the
function-local `distance` (`none` = still unbound) and an exception flag
(`true` once the `best_distance = distance` line raised `NameError`). -/
structure ScanState where
  best : Option (Nat × Nat)
  bestCov : Int
  bestDist : Int
  dist : Option Int
  err : Bool
deriving Repr

/-- One iteration of the optimizer's cell scan (lines 80-92 of the source):
skip obstructed cells; run the coverage loop, which also rebinds `distance`
to the distance to the last tower whenever the tower list is non-empty; on a
zero-coverage cell with `tower_type['coverage'] > best_coverage`, record the
cell — reading `distance` there raises `NameError` if it was never bound.
After an exception the remaining cells are not visited. -/
def scanCell (g : CityGrid) (tc : Int) (s : ScanState) (c : Nat × Nat) : ScanState :=
  if s.err then s
  else if g.grid c.1 c.2 then
    let dNew : Option Int :=
      match g.towers.getLast? with
      | some t => some (cellDist c.1 c.2 t)
      | none => s.dist
    if coverageCount g.towers c.1 c.2 = 0 ∧ s.bestCov < tc then
      match dNew with
      | none => { s with err := true }
      | some dv =>
          { best := some c, bestCov := tc, bestDist := dv, dist := dNew, err := false }
    else { s with dist := dNew }
  else s

/-- The full nested scan over a list of cells. -/
def scanCells (g : CityGrid) (tc : Int) : List (Nat × Nat) → ScanState → ScanState
  | [], s => s
  | c :: rest, s => scanCells g tc rest (scanCell g tc s c)

/-- Outcome of one scan: `NameError` raised, a best cell found, or nothing. -/
inductive ScanOut where
  | errOut : ScanOut
  | nothing : ScanOut
  | foundCell (x y : Nat) : ScanOut
deriving DecidableEq, Repr

/-- One scan of all grid cells, started from the freshly reset locals
`best_tower = None; best_coverage = 0; best_distance = 0`.  Within a single
`optimize_tower_placement` call the Python local `distance` persists across
scans, but it is observably unbound at a scan exactly when the tower list is
empty (towers only grow, and any scan with a non-empty tower list rebinds
`distance` at each passable cell before it is read), so starting each scan
with `dist := none` is equivalent. -/
def initScanState : ScanState :=
  { best := none, bestCov := 0, bestDist := 0, dist := none, err := false }

/-- Reading off the scan's outcome from its final locals. -/
def toScanOut (s : ScanState) : ScanOut :=
  if s.err then .errOut
  else
    match s.best with
    | some c => .foundCell c.1 c.2
    | none => .nothing

def scanResult (g : CityGrid) (tc : Int) : ScanOut :=
  toScanOut (scanCells g tc (rowMajor g.n g.m) initScanState)

/-- Result of the inner `while remaining_budget >= cost` loop: normal exit,
a propagating `NameError`, or fuel exhaustion (a modelling artifact shown
unreachable below). -/
inductive InnerOut where
  | done (g : CityGrid) : InnerOut
  | errStop (g : CityGrid) : InnerOut
  | fuelOut (g : CityGrid) : InnerOut

/-- The `CityGrid` carried by an `InnerOut`. -/
def InnerOut.grid : InnerOut → CityGrid
  | .done g => g
  | .errStop g => g
  | .fuelOut g => g

/-- The inner `while remaining_budget >= tower_type['cost']` loop of
`optimize_tower_placement`: scan for a best cell; if one is found, place a
tower of the type's range there via `place_tower` and spend the cost,
otherwise break. -/
def innerLoop (tt : TowerType) : Nat → CityGrid → Int → InnerOut
  | 0, g, _ => .fuelOut g
  | fuel + 1, g, rem =>
    if rem < tt.cost then .done g
    else
      match scanResult g tt.coverage with
      | .errOut => .errStop g
      | .nothing => .done g
      | .foundCell x y =>
          innerLoop tt fuel (place_tower g (x : Int) (y : Int) tt.range) (rem - tt.cost)

/-- Result of a whole `optimize_tower_placement` call. -/
inductive OptOut where
  | ok (g : CityGrid) : OptOut
  | errStop (g : CityGrid) : OptOut
  | fuelOut (g : CityGrid) : OptOut

/-- The `CityGrid` carried by an `OptOut`. -/
def OptOut.grid : OptOut → CityGrid
  | .ok g => g
  | .errStop g => g
  | .fuelOut g => g

/-- Whether the fuel artifact fired (never does; see the termination claim). -/
def OptOut.isFuelOut : OptOut → Bool
  | .fuelOut _ => true
  | _ => false

/-- The outer `for tower_type in tower_types` loop: each type restarts with
the full `budget`.  The inner loop's fuel `n*m + 1` is a modelling bound on
the number of placements per type, proved sufficient below. -/
def optLoop (budget : Int) : List TowerType → CityGrid → OptOut
  | [], g => .ok g
  | tt :: rest, g =>
    match innerLoop tt (g.n * g.m + 1) g budget with
    | .done g2 => optLoop budget rest g2
    | .errStop g2 => .errStop g2
    | .fuelOut g2 => .fuelOut g2

/-- `CityGrid.optimize_tower_placement`. -/
def optimize_tower_placement (g : CityGrid) (budget : Int)
    (tower_types : List TowerType) : OptOut :=
  optLoop budget tower_types g

/-- The `networkx` undirected graph as a weighted adjacency function:
`adj i j = some w` means an edge between `i` and `j` of weight `w`. -/
structure Graph where
  adj : Nat → Nat → Option Int

/-- `G.add_edge(i, j, weight=w)`: stores the weight under both orientations
of the unordered pair (the networkx adjacency dict is symmetric), overwriting
any previous weight. -/
def addEdge (G : Graph) (i j : Nat) (w : Int) : Graph :=
  ⟨fun a b => if (a = i ∧ b = j) ∨ (a = j ∧ b = i) then some w else G.adj a b⟩

/-- Squared Euclidean distance between two towers,
`(x1 - x2) ** 2 + (y1 - y2) ** 2`. -/
def sqDist (t u : Tower) : Int :=
  (t.x - u.x) ^ 2 + (t.y - u.y) ^ 2

/-- All ordered index pairs `(i, j)` with `i, j < len`, enumerated as the two
nested `enumerate(self.towers)` loops do. -/
def pairList (len : Nat) : List (Nat × Nat) :=
  (List.range len).flatMap (fun i => (List.range len).map (fun j => (i, j)))

/-- The tower at index `i` (indices below the length are the only ones the
construction loop ever uses). -/
def towAt (ts : List Tower) (i : Nat) : Tower := ts.getD i ⟨0, 0, 0⟩

/-- The body of the graph-construction loop of `find_reliable_path` for the
ordered pair `c = (i, j)`: skip `i == j`; otherwise, if the squared distance
is at most the *first* tower's squared range (`tower[2]`), add the undirected
edge with the squared distance as weight. -/
def addStep (ts : List Tower) (G : Graph) (c : Nat × Nat) : Graph :=
  if c.1 = c.2 then G
  else if sqDist (towAt ts c.1) (towAt ts c.2) ≤ (towAt ts c.1).r ^ 2 then
    addEdge G c.1 c.2 (sqDist (towAt ts c.1) (towAt ts c.2))
  else G

/-- The graph-construction loop of `find_reliable_path`: `addStep` over every
ordered pair of tower indices. -/
def buildGraph (ts : List Tower) : Graph :=
  (pairList ts.length).foldl (addStep ts) ⟨fun _ _ => none⟩

/-- The directed range test of the construction loop: tower `i` reaches
tower `j`. -/
def edgeTest (ts : List Tower) (i j : Nat) : Prop :=
  sqDist (towAt ts i) (towAt ts j) ≤ (towAt ts i).r ^ 2

instance (ts : List Tower) (i j : Nat) : Decidable (edgeTest ts i j) := by
  unfold edgeTest; infer_instance

/-- Whether processing the ordered pair `c` writes a weight under the
unordered key `{a, b}`. -/
def hitB (ts : List Tower) (a b : Nat) (c : Nat × Nat) : Bool :=
  !(c.1 == c.2) && decide (edgeTest ts c.1 c.2)
    && ((c.1 == a && c.2 == b) || (c.1 == b && c.2 == a))

/-- Whether index `u` is a node of the graph, i.e. has an incident edge among
the first `len` indices (networkx only creates nodes through `add_edge`). -/
def hasNode (G : Graph) (len u : Nat) : Bool :=
  (List.range len).any (fun v => (G.adj u v).isSome)

/-- Neighbour list of `u` among indices below `len`. -/
def nbrs (G : Graph) (len u : Nat) : List Nat :=
  (List.range len).filter (fun v => (G.adj u v).isSome)

/-- A walk from `s` to `t`: a non-empty vertex sequence starting at `s`,
ending at `t`, with an edge between each consecutive pair. -/
def IsWalk (G : Graph) (s t : Nat) (p : List Nat) : Prop :=
  p.head? = some s ∧ p.getLast? = some t ∧
    List.Chain' (fun u v => (G.adj u v).isSome = true) p

/-- Total weight of a vertex sequence: sum of the weights of consecutive
edges (missing edges count 0; on a walk every edge is present). -/
def walkW (G : Graph) : List Nat → Int
  | u :: v :: rest => (G.adj u v).getD 0 + walkW G (v :: rest)
  | _ => 0

/-- Depth-first enumeration of the duplicate-free paths from `u` to `t` that
avoid `visited`; `fuel` bounds the number of further edges. -/
def duplicateFreePaths (G : Graph) (len t : Nat) : Nat → Nat → List Nat → List (List Nat)
  | fuel, u, visited =>
    if u = t then [[u]]
    else
      match fuel with
      | 0 => []
      | fuel + 1 =>
          ((nbrs G len u).filter (fun v => ¬ visited.contains v)).flatMap
            (fun v => (duplicateFreePaths G len t fuel v (v :: visited)).map (u :: ·))

/-- Choose a minimum-weight element of a path list (ties: the later one in
the list, which is irrelevant to every property proved here). -/
def pickMin (G : Graph) : List (List Nat) → Option (List Nat)
  | [] => none
  | p :: rest =>
    match pickMin G rest with
    | none => some p
    | some q => if walkW G q < walkW G p then some q else some p

/-- Modelled from the library contract of `nx.shortest_path` with
`weight='weight'` (Dijkstra over non-negative weights): when `s ≠ t`, return
a minimum-total-weight path from `s` to `t`, or `none` when no path exists
(the library then raises `NetworkXNoPath`). -/
def minPath (G : Graph) (len s t : Nat) : Option (List Nat) :=
  pickMin G (duplicateFreePaths G len t len s [s])

/-- Observable outcome of `find_reliable_path`: a returned path, the `None`
returned when `NetworkXNoPath` is caught, or the uncaught `NodeNotFound`
exception networkx raises when the source node is absent from the graph. -/
inductive PathResult where
  | found (p : List Nat) : PathResult
  | noPath : PathResult
  | nodeNotFound : PathResult
deriving DecidableEq, Repr

/-- `CityGrid.find_reliable_path`: build the graph from the towers, then call
`nx.shortest_path(G, start, end, weight='weight')` catching only
`NetworkXNoPath`.  With a weight argument the library delegates to
`bidirectional_dijkstra`, which first checks that both endpoints are nodes
of `G` (raising `NodeNotFound`, which the source does not catch), then
returns `[start]` immediately when `start == end`, and otherwise searches,
raising `NetworkXNoPath` (caught, `None` returned) when the target is
unreachable. -/
def find_reliable_path (g : CityGrid) (s t : Nat) : PathResult :=
  if hasNode (buildGraph g.towers) g.towers.length s &&
      hasNode (buildGraph g.towers) g.towers.length t then
    if s = t then .found [s]
    else
      match minPath (buildGraph g.towers) g.towers.length s t with
      | some p => .found p
      | none => .noPath
  else .nodeNotFound

/-- Position freshness: each tower of the second list occupies a cell
distinct from every tower that precedes it (the first list plus the earlier
part of the second). -/
def PosFresh : List Tower → List Tower → Prop
  | _, [] => True
  | base, t :: rest =>
      (∀ u ∈ base, ¬ (u.x = t.x ∧ u.y = t.y)) ∧ PosFresh (base ++ [t]) rest

/-- Number of passable cells with zero coverage (the optimizer's candidate
cells); each successful placement strictly decreases it. -/
def uncoveredCount (g : CityGrid) : Nat :=
  (rowMajor g.n g.m).countP
    (fun c => g.grid c.1 c.2 && coverageCount g.towers c.1 c.2 == 0)

/-- The spec's §8 example registry: a 10×10 all-passable grid with towers at
`(3, 4)` range 2 and `(7, 5)` range 3 (squared distance 17 exceeds both
squared ranges, so the built graph has no edge at all). -/
def exampleGrid10 : CityGrid := ⟨10, 10, fun _ _ => true, [⟨3, 4, 2⟩, ⟨7, 5, 3⟩]⟩

/-- A registry with a single tower: its index has no incident edge, so it is
absent from the built graph. -/
def singleTowerGrid : CityGrid := ⟨1, 1, fun _ _ => true, [⟨0, 0, 1⟩]⟩

/-- Two towers in range of each other: both indices are graph nodes. -/
def pairGrid : CityGrid := ⟨2, 2, fun _ _ => true, [⟨0, 0, 2⟩, ⟨0, 1, 2⟩]⟩

/-- A 3-tower chain A–B–C along a row: A–B and B–C are each within range
(squared distance 4 ≤ 2²) but A–C is not (16 > 4 for both endpoints). -/
def chainGrid : CityGrid := ⟨5, 5, fun _ _ => true, [⟨0, 0, 2⟩, ⟨0, 2, 2⟩, ⟨0, 4, 2⟩]⟩

/-- A 1×1 all-passable grid with an empty registry. -/
def freeCellGrid : CityGrid := ⟨1, 1, fun _ _ => true, []⟩

/-- A 1×1 fully obstructed grid with an empty registry: no qualifying cell
ever exists. -/
def blockedGrid : CityGrid := ⟨1, 1, fun _ _ => false, []⟩

/-- A 2×2 all-passable grid holding one range-0 tower at `(0, 0)`: the first
uncovered cell in row-major order is `(0, 1)`. -/
def partialGrid : CityGrid := ⟨2, 2, fun _ _ => true, [⟨0, 0, 0⟩]⟩

/-- Towers 0 and 1 are linked, tower 2 at `(9, 9)` has no incident edge:
tower 0 is a graph node but tower 2 is absent from the graph. -/
def splitGrid : CityGrid :=
  ⟨10, 10, fun _ _ => true, [⟨0, 0, 1⟩, ⟨0, 1, 1⟩, ⟨9, 9, 1⟩]⟩

/-- Two linked pairs of towers in separate corners: indices 0, 1, 2 and 3
are all graph nodes (edges 0–1 and 2–3), but no walk joins the two
components. -/
def twoIslandGrid : CityGrid :=
  ⟨10, 10, fun _ _ => true, [⟨0, 0, 1⟩, ⟨0, 1, 1⟩, ⟨9, 9, 1⟩, ⟨9, 8, 1⟩]⟩

theorem sqDist_comm (t u : Tower) : sqDist t u = sqDist u t := by
  unfold sqDist; ring

theorem sqDist_nonneg (t u : Tower) : 0 ≤ sqDist t u :=
  add_nonneg (sq_nonneg _) (sq_nonneg _)

theorem mem_pairList {len : Nat} {c : Nat × Nat} :
    c ∈ pairList len ↔ c.1 < len ∧ c.2 < len := by
  rcases c with ⟨i, j⟩
  simp [pairList, List.mem_flatMap, List.mem_map, List.mem_range, eq_comm]

theorem addStep_adj (ts : List Tower) (a b : Nat) (G : Graph) (c : Nat × Nat) :
    (addStep ts G c).adj a b =
      if hitB ts a b c then some (sqDist (towAt ts a) (towAt ts b)) else G.adj a b := by
  rcases c with ⟨i, j⟩
  by_cases hij : i = j
  · have hB : hitB ts a b (i, j) = false := by simp [hitB, hij]
    subst hij
    simp [addStep, hB]
  · by_cases ht : edgeTest ts i j
    · have hL : (addStep ts G (i, j)).adj a b =
          if (a = i ∧ b = j) ∨ (a = j ∧ b = i)
          then some (sqDist (towAt ts i) (towAt ts j)) else G.adj a b := by
        simp only [addStep]
        rw [if_neg hij,
          if_pos (show sqDist (towAt ts i) (towAt ts j) ≤ (towAt ts i).r ^ 2 from ht)]
        rfl
      rw [hL]
      by_cases hm : (a = i ∧ b = j) ∨ (a = j ∧ b = i)
      · rw [if_pos hm]
        have hB : hitB ts a b (i, j) = true := by
          rcases hm with ⟨rfl, rfl⟩ | ⟨rfl, rfl⟩ <;> simp [hitB, hij, ht]
        rw [if_pos (by simp [hB])]
        rcases hm with ⟨rfl, rfl⟩ | ⟨rfl, rfl⟩
        · rfl
        · rw [sqDist_comm]
      · rw [if_neg hm]
        have h1 : ¬ (a = i ∧ b = j) := fun h => hm (Or.inl h)
        have h2 : ¬ (a = j ∧ b = i) := fun h => hm (Or.inr h)
        have hmatch : ((i == a && j == b) || (i == b && j == a)) = false := by
          simp only [Bool.or_eq_false_iff, Bool.and_eq_false_iff, beq_eq_false_iff_ne,
            ne_eq]
          constructor
          · by_cases hia : i = a
            · right; intro hjb; exact h1 ⟨hia.symm, hjb.symm⟩
            · left; exact hia
          · by_cases hib : i = b
            · right; intro hja; exact h2 ⟨hja.symm, hib.symm⟩
            · left; exact hib
        have hB : hitB ts a b (i, j) = false := by
          simp only [hitB]; rw [hmatch, Bool.and_false]
        rw [if_neg (by simp [hB])]
    · have hL : addStep ts G (i, j) = G := by
        simp only [addStep]
        rw [if_neg hij,
          if_neg (show ¬ sqDist (towAt ts i) (towAt ts j) ≤ (towAt ts i).r ^ 2 from ht)]
      have hB : hitB ts a b (i, j) = false := by
        simp [hitB, ht]
      rw [hL, if_neg (by simp [hB])]

theorem foldl_addStep_adj (ts : List Tower) (a b : Nat) (P : List (Nat × Nat)) :
    ∀ G0 : Graph,
      ((P.foldl (addStep ts) G0).adj a b) =
        if P.any (hitB ts a b) then some (sqDist (towAt ts a) (towAt ts b))
        else G0.adj a b := by
  induction P with
  | nil => intro G0; simp
  | cons c P ih =>
      intro G0
      rw [List.foldl_cons, ih, List.any_cons]
      by_cases h : P.any (hitB ts a b) = true
      · simp [h]
      · simp only [h, Bool.or_false]
        rw [addStep_adj]
        by_cases hc : hitB ts a b c = true <;> simp [hc]

theorem any_hitB (ts : List Tower) (a b : Nat) :
    ((pairList ts.length).any (hitB ts a b) = true) ↔
      (a < ts.length ∧ b < ts.length ∧ a ≠ b ∧
        (edgeTest ts a b ∨ edgeTest ts b a)) := by
  rw [List.any_eq_true]
  constructor
  · rintro ⟨⟨i, j⟩, hmem, hhit⟩
    have hb := mem_pairList.mp hmem
    simp only [hitB, Bool.and_eq_true, Bool.or_eq_true, Bool.not_eq_eq_eq_not,
      decide_eq_true_eq, beq_iff_eq] at hhit
    rcases hhit with ⟨⟨hne, htest⟩, hcase⟩
    have hneP : i ≠ j := by simpa using hne
    rcases hcase with ⟨rfl, rfl⟩ | ⟨rfl, rfl⟩
    · exact ⟨hb.1, hb.2, hneP, Or.inl htest⟩
    · exact ⟨hb.2, hb.1, fun h => hneP h.symm, Or.inr htest⟩
  · rintro ⟨ha, hb, hne, htest | htest⟩
    · refine ⟨(a, b), mem_pairList.mpr ⟨ha, hb⟩, ?_⟩
      simp [hitB, hne, htest]
    · refine ⟨(b, a), mem_pairList.mpr ⟨hb, ha⟩, ?_⟩
      have hne2 : b ≠ a := fun h => hne h.symm
      simp [hitB, hne2, htest]

/-- The stored adjacency of the built graph, in closed form. -/
theorem buildGraph_adj (ts : List Tower) (a b : Nat) :
    (buildGraph ts).adj a b =
      if a < ts.length ∧ b < ts.length ∧ a ≠ b ∧
          (edgeTest ts a b ∨ edgeTest ts b a)
      then some (sqDist (towAt ts a) (towAt ts b)) else none := by
  unfold buildGraph
  rw [foldl_addStep_adj]
  by_cases h : (pairList ts.length).any (hitB ts a b) = true
  · rw [if_pos h, if_pos ((any_hitB ts a b).mp h)]
  · rw [if_neg h, if_neg (fun hc => h ((any_hitB ts a b).mpr hc))]

theorem buildGraph_adj_bounds {ts : List Tower} {a b : Nat} {w : Int}
    (h : (buildGraph ts).adj a b = some w) : a < ts.length ∧ b < ts.length := by
  rw [buildGraph_adj] at h
  by_cases hc : a < ts.length ∧ b < ts.length ∧ a ≠ b ∧
      (edgeTest ts a b ∨ edgeTest ts b a)
  · exact ⟨hc.1, hc.2.1⟩
  · rw [if_neg hc] at h; cases h

theorem buildGraph_w_nonneg {ts : List Tower} {a b : Nat} {w : Int}
    (h : (buildGraph ts).adj a b = some w) : 0 ≤ w := by
  rw [buildGraph_adj] at h
  by_cases hc : a < ts.length ∧ b < ts.length ∧ a ≠ b ∧
      (edgeTest ts a b ∨ edgeTest ts b a)
  · rw [if_pos hc] at h
    cases h
    exact sqDist_nonneg _ _
  · rw [if_neg hc] at h; cases h

/-- C3: in the graph built by `find_reliable_path`, for tower indices `i ≠ j`
the undirected edge `{i, j}` is stored with weight equal to the squared
distance `d` between the towers if and only if `d ≤ range_i ^ 2` or
`d ≤ range_j ^ 2` (both ordered directions are enumerated and write the same
symmetric weight), the stored adjacency is symmetric, and no self-loop is
ever present. -/
theorem buildGraph_edge_iff (ts : List Tower) (i j : Nat) :
    (∀ w : Int,
      (buildGraph ts).adj i j = some w ↔
        i < ts.length ∧ j < ts.length ∧ i ≠ j ∧
          w = sqDist (towAt ts i) (towAt ts j) ∧
          (sqDist (towAt ts i) (towAt ts j) ≤ (towAt ts i).r ^ 2 ∨
            sqDist (towAt ts i) (towAt ts j) ≤ (towAt ts j).r ^ 2))
    ∧ (buildGraph ts).adj i j = (buildGraph ts).adj j i
    ∧ (buildGraph ts).adj i i = none := by
  refine ⟨?_, ?_, ?_⟩
  · intro w
    rw [buildGraph_adj]
    constructor
    · intro h
      by_cases hc : i < ts.length ∧ j < ts.length ∧ i ≠ j ∧
          (edgeTest ts i j ∨ edgeTest ts j i)
      · rw [if_pos hc] at h
        cases h
        refine ⟨hc.1, hc.2.1, hc.2.2.1, rfl, ?_⟩
        rcases hc.2.2.2 with ht | ht
        · exact Or.inl ht
        · exact Or.inr (by rw [sqDist_comm]; exact ht)
      · rw [if_neg hc] at h; cases h
    · rintro ⟨hi, hj, hne, rfl, htest⟩
      have hor : edgeTest ts i j ∨ edgeTest ts j i := by
        rcases htest with ht | ht
        · exact Or.inl ht
        · exact Or.inr (show edgeTest ts j i from by
            unfold edgeTest; rw [sqDist_comm]; exact ht)
      rw [if_pos ⟨hi, hj, hne, hor⟩]
  · rw [buildGraph_adj, buildGraph_adj]
    by_cases hc : i < ts.length ∧ j < ts.length ∧ i ≠ j ∧
        (edgeTest ts i j ∨ edgeTest ts j i)
    · have hc2 : j < ts.length ∧ i < ts.length ∧ j ≠ i ∧
          (edgeTest ts j i ∨ edgeTest ts i j) :=
        ⟨hc.2.1, hc.1, fun h => hc.2.2.1 h.symm, hc.2.2.2.symm⟩
      rw [if_pos hc, if_pos hc2, sqDist_comm]
    · have hc2 : ¬ (j < ts.length ∧ i < ts.length ∧ j ≠ i ∧
          (edgeTest ts j i ∨ edgeTest ts i j)) := by
        rintro ⟨hj, hi, hne, htest⟩
        exact hc ⟨hi, hj, fun h => hne h.symm, htest.symm⟩
      rw [if_neg hc, if_neg hc2]
  · rw [buildGraph_adj]
    have hc : ¬ (i < ts.length ∧ i < ts.length ∧ i ≠ i ∧
        (edgeTest ts i i ∨ edgeTest ts i i)) := by
      rintro ⟨_, _, hne, _⟩
      exact hne rfl
    rw [if_neg hc]

/-- C4: `place_tower` appends exactly the new tower `(x, y, r)` at the next
sequential index if and only if the coordinates are in bounds and the cell is
passable; on any failing condition the object is left completely unchanged
(and no exception is raised — the function is total). -/
theorem place_tower_spec (g : CityGrid) (x y r : Int) :
    ((place_tower g x y r).towers = g.towers ++ [⟨x, y, r⟩] ↔ PlaceOK g x y)
    ∧ ((place_tower g x y r).towers.length = g.towers.length + 1 ↔ PlaceOK g x y)
    ∧ (¬ PlaceOK g x y → place_tower g x y r = g) := by
  have hdef : place_tower g x y r =
      if PlaceOK g x y then { g with towers := g.towers ++ [⟨x, y, r⟩] } else g := rfl
  rw [hdef]
  by_cases h : PlaceOK g x y
  · rw [if_pos h]
    refine ⟨⟨fun _ => h, fun _ => rfl⟩, ⟨fun _ => h, fun _ => by simp⟩,
      fun hc => absurd h hc⟩
  · rw [if_neg h]
    refine ⟨⟨fun he => ?_, fun hc => absurd hc h⟩,
      ⟨fun he => ?_, fun hc => absurd hc h⟩, fun _ => rfl⟩
    · exact absurd (congrArg List.length he) (by simp)
    · exact absurd he (by omega)

/-- Witness for C4 at concrete inputs: a passable in-bounds placement appends
the tower, and an out-of-bounds placement is a silent no-op. -/
theorem place_tower_spec_witness :
    (place_tower ⟨2, 2, fun _ _ => true, []⟩ 1 1 5).towers = [⟨1, 1, 5⟩]
    ∧ place_tower ⟨2, 2, fun _ _ => true, []⟩ (-1) 0 5 = ⟨2, 2, fun _ _ => true, []⟩ := by
  constructor
  · have h := (place_tower_spec ⟨2, 2, fun _ _ => true, []⟩ 1 1 5).1.mpr (by decide)
    simpa using h
  · exact (place_tower_spec ⟨2, 2, fun _ _ => true, []⟩ (-1) 0 5).2.2 (by decide)

/-- C5 counterexample: the passability matrix produced by the source
constructor depends on the obstruction-probability parameter even when the
external random draws are identical, so construction does not pass a
caller-supplied matrix through — the core generates the pattern itself
(there is no boolean-matrix parameter to agree with). -/
theorem cityGrid_init_counterexample :
    (CityGrid.init 1 1 (1/4) (fun _ _ => (1 : ℚ)/2)).grid 0 0 ≠
      (CityGrid.init 1 1 (3/4) (fun _ _ => (1 : ℚ)/2)).grid 0 0 := by
  have e1 : (CityGrid.init 1 1 (1/4) (fun _ _ => (1 : ℚ)/2)).grid 0 0 = true := by
    simp only [CityGrid.init]
    exact decide_eq_true (by norm_num)
  have e2 : (CityGrid.init 1 1 (3/4) (fun _ _ => (1 : ℚ)/2)).grid 0 0 = false := by
    simp only [CityGrid.init]
    exact decide_eq_false (by norm_num)
  rw [e1, e2]
  simp

/-- C5 amended: the source constructor takes dimensions and an obstruction
probability and generates the passability matrix itself from the random
draws (a cell is passable iff its draw exceeds the probability); it accepts
no precomputed matrix.  Equivalently, it factors as the spec's prescribed
matrix-accepting constructor applied to the matrix the core itself
generates. -/
theorem cityGrid_init_generates (n m : Nat) (p : ℚ) (rand : Nat → Nat → ℚ) :
    CityGrid.init n m p rand = gridOfMatrix n m (generatePassable p rand)
    ∧ (∀ x y : Nat,
        (CityGrid.init n m p rand).grid x y = decide (p < rand x y))
    ∧ (CityGrid.init n m p rand).towers = [] :=
  ⟨rfl, fun _ _ => rfl, rfl⟩

theorem scanCells_err (g : CityGrid) (tc : Int) (L : List (Nat × Nat))
    (s : ScanState) (h : s.err = true) : scanCells g tc L s = s := by
  induction L with
  | nil => rfl
  | cons c L ih =>
      show scanCells g tc L (scanCell g tc s c) = s
      rw [show scanCell g tc s c = s from by rw [scanCell, if_pos h], ih]

theorem scanCells_stable (g : CityGrid) (tc : Int) (L : List (Nat × Nat)) :
    ∀ s : ScanState, s.err = false → ¬ (s.bestCov < tc) →
      (scanCells g tc L s).err = false ∧ (scanCells g tc L s).best = s.best ∧
        (scanCells g tc L s).bestCov = s.bestCov := by
  induction L with
  | nil => exact fun s he _ => ⟨he, rfl, rfl⟩
  | cons c L ih =>
      intro s he hb
      have hunfold : scanCells g tc (c :: L) s = scanCells g tc L (scanCell g tc s c) :=
        rfl
      rw [hunfold]
      have hstep : (scanCell g tc s c).err = false ∧
          (scanCell g tc s c).best = s.best ∧
          (scanCell g tc s c).bestCov = s.bestCov := by
        unfold scanCell
        rw [he]
        by_cases hg : g.grid c.1 c.2 = true
        · rw [hg]
          simp only [Bool.false_eq_true, if_false, if_true]
          rw [if_neg (fun hcond => hb hcond.2)]
          exact ⟨rfl, rfl, rfl⟩
        · simp only [Bool.false_eq_true, if_false]
          rw [if_neg hg]
          exact ⟨he, rfl, rfl⟩
      have := ih (scanCell g tc s c) hstep.1 (by rw [hstep.2.2]; exact hb)
      exact ⟨this.1, by rw [this.2.1, hstep.2.1], by rw [this.2.2, hstep.2.2]⟩

theorem scanCells_search (g : CityGrid) (tc : Int) (hts : g.towers ≠ [])
    (L : List (Nat × Nat)) :
    ∀ s : ScanState, s.err = false → s.bestCov < tc →
      (scanCells g tc L s).err = false ∧
        (scanCells g tc L s).best =
          (match L.find? (fun c => g.grid c.1 c.2 &&
              coverageCount g.towers c.1 c.2 == 0) with
            | some c => some c
            | none => s.best) := by
  obtain ⟨t0, ht0⟩ := List.getLast?_isSome.mpr hts |> Option.isSome_iff_exists.mp
  induction L with
  | nil => exact fun s he _ => ⟨he, rfl⟩
  | cons c L ih =>
      intro s he hb
      have hunfold : scanCells g tc (c :: L) s = scanCells g tc L (scanCell g tc s c) :=
        rfl
      rw [hunfold]
      by_cases hg : g.grid c.1 c.2 = true
      · by_cases hcov : coverageCount g.towers c.1 c.2 = 0
        · -- qualifying cell: recorded, and the rest of the scan keeps it
          have hstep : scanCell g tc s c =
              { best := some c, bestCov := tc, bestDist := cellDist c.1 c.2 t0,
                dist := some (cellDist c.1 c.2 t0), err := false } := by
            unfold scanCell
            rw [he, hg, ht0]
            simp only [Bool.false_eq_true, if_false, if_true]
            rw [if_pos ⟨hcov, hb⟩]
          rw [hstep]
          have hrest := scanCells_stable g tc L
              { best := some c, bestCov := tc, bestDist := cellDist c.1 c.2 t0,
                dist := some (cellDist c.1 c.2 t0), err := false } rfl (lt_irrefl tc)
          have hfind : (c :: L).find? (fun c => g.grid c.1 c.2 &&
              coverageCount g.towers c.1 c.2 == 0) = some c := by
            rw [List.find?_cons_of_pos]
            simp [hg, hcov]
          rw [hfind]
          exact ⟨hrest.1, by rw [hrest.2.1]⟩
        · -- non-qualifying passable cell: state advances but best unchanged
          have hstep : scanCell g tc s c = { s with dist :=
              match g.towers.getLast? with
              | some t => some (cellDist c.1 c.2 t)
              | none => s.dist } := by
            unfold scanCell
            rw [he, hg]
            simp only [Bool.false_eq_true, if_false, if_true]
            rw [if_neg (fun hcond => hcov hcond.1)]
          have hfind : (c :: L).find? (fun c => g.grid c.1 c.2 &&
              coverageCount g.towers c.1 c.2 == 0) =
              L.find? (fun c => g.grid c.1 c.2 &&
                coverageCount g.towers c.1 c.2 == 0) := by
            rw [List.find?_cons_of_neg]
            simp [hg, hcov]
          rw [hstep, hfind]
          exact ih { s with dist :=
              match g.towers.getLast? with
              | some t => some (cellDist c.1 c.2 t)
              | none => s.dist } he hb
      · have hstep : scanCell g tc s c = s := by
          unfold scanCell
          rw [he]
          simp only [Bool.false_eq_true, if_false]
          rw [if_neg hg]
        have hfind : (c :: L).find? (fun c => g.grid c.1 c.2 &&
            coverageCount g.towers c.1 c.2 == 0) =
            L.find? (fun c => g.grid c.1 c.2 &&
              coverageCount g.towers c.1 c.2 == 0) := by
          rw [List.find?_cons_of_neg]
          simp [hg]
        rw [hstep, hfind]
        exact ih s he hb

theorem scanCells_empty (g : CityGrid) (tc : Int) (hts : g.towers = [])
    (L : List (Nat × Nat)) :
    ∀ s : ScanState, s.err = false → s.dist = none → s.bestCov < tc →
      scanCells g tc L s =
        (if L.any (fun c => g.grid c.1 c.2) then { s with err := true } else s) := by
  have hlast : g.towers.getLast? = none := by rw [hts]; rfl
  have hcov : ∀ c : Nat × Nat, coverageCount g.towers c.1 c.2 = 0 := by
    intro c; rw [hts]; rfl
  induction L with
  | nil => intro s _ _ _; rfl
  | cons c L ih =>
      intro s he hd hb
      have hunfold : scanCells g tc (c :: L) s = scanCells g tc L (scanCell g tc s c) :=
        rfl
      rw [hunfold, List.any_cons]
      by_cases hg : g.grid c.1 c.2 = true
      · -- the first passable cell raises NameError: distance is unbound
        have hstep : scanCell g tc s c = { s with err := true } := by
          unfold scanCell
          rw [he, hg, hlast, hd]
          simp only [Bool.false_eq_true, if_false, if_true]
          rw [if_pos ⟨hcov c, hb⟩]
        rw [hstep, scanCells_err g tc L _ rfl]
        rw [show (g.grid c.1 c.2 || L.any fun c => g.grid c.1 c.2) = true from by
          simp [hg]]
        rw [if_pos rfl]
      · have hstep : scanCell g tc s c = s := by
          unfold scanCell
          rw [he]
          simp only [Bool.false_eq_true, if_false]
          rw [if_neg hg]
        rw [hstep]
        have := ih s he hd hb
        rw [this]
        have hgf : g.grid c.1 c.2 = false := Bool.not_eq_true _ |>.mp hg
        rw [show (g.grid c.1 c.2 || L.any fun c => g.grid c.1 c.2) =
            (L.any fun c => g.grid c.1 c.2) from by simp [hgf]]

/-- With a non-empty registry the scan never faults, and (the degenerate
best-score search) reports exactly the first passable zero-coverage cell in
row-major order when the type's coverage score is positive, and nothing
otherwise. -/
theorem scanResult_nonempty (g : CityGrid) (tc : Int) (hts : g.towers ≠ []) :
    scanResult g tc =
      if 0 < tc then
        (match firstUncovered g with
          | some c => ScanOut.foundCell c.1 c.2
          | none => ScanOut.nothing)
      else ScanOut.nothing := by
  unfold scanResult toScanOut
  by_cases htc : (0 : Int) < tc
  · have h := scanCells_search g tc hts (rowMajor g.n g.m) initScanState rfl htc
    rw [if_pos htc, h.1]
    simp only [Bool.false_eq_true, if_false]
    rw [h.2]
    unfold firstUncovered
    cases (rowMajor g.n g.m).find?
        (fun c => g.grid c.1 c.2 && coverageCount g.towers c.1 c.2 == 0) with
    | none => rfl
    | some c => rfl
  · have h := scanCells_stable g tc (rowMajor g.n g.m) initScanState rfl htc
    rw [if_neg htc, h.1]
    simp only [Bool.false_eq_true, if_false]
    rw [h.2.1]
    rfl

/-- With an empty registry and a positive coverage score the scan raises
`NameError` at the first passable cell (the local `distance` was never
bound); with no passable cell it finds nothing. -/
theorem scanResult_empty (g : CityGrid) (tc : Int) (hts : g.towers = [])
    (htc : 0 < tc) :
    scanResult g tc =
      if (rowMajor g.n g.m).any (fun c => g.grid c.1 c.2) then ScanOut.errOut
      else ScanOut.nothing := by
  unfold scanResult toScanOut
  have h := scanCells_empty g tc hts (rowMajor g.n g.m) initScanState rfl rfl htc
  rw [h]
  by_cases hp : (rowMajor g.n g.m).any (fun c => g.grid c.1 c.2) = true
  · rw [hp]
    simp
  · have hpf := Bool.not_eq_true _ |>.mp hp
    rw [hpf]
    simp [initScanState]

/-- A coverage score that is not positive never beats the reset
`best_coverage = 0`, so the scan finds nothing. -/
theorem scanResult_nonpos (g : CityGrid) (tc : Int) (htc : tc ≤ 0) :
    scanResult g tc = ScanOut.nothing := by
  unfold scanResult toScanOut
  have h := scanCells_stable g tc (rowMajor g.n g.m) initScanState rfl
    (fun hlt => absurd (lt_of_lt_of_le hlt htc) (lt_irrefl (0 : Int)))
  rw [h.1]
  simp only [Bool.false_eq_true, if_false]
  rw [h.2.1]
  rfl

/-- A found cell is always the first passable uncovered cell, found by a
positive-score scan over a non-empty registry. -/
theorem scanResult_found {g : CityGrid} {tc : Int} {x y : Nat}
    (h : scanResult g tc = ScanOut.foundCell x y) :
    firstUncovered g = some (x, y) ∧ 0 < tc ∧ g.towers ≠ [] := by
  by_cases htc : (0 : Int) < tc
  · by_cases hts : g.towers = []
    · rw [scanResult_empty g tc hts htc] at h
      by_cases hp : (rowMajor g.n g.m).any (fun c => g.grid c.1 c.2) = true
      · rw [if_pos hp] at h; cases h
      · rw [if_neg hp] at h; cases h
    · rw [scanResult_nonempty g tc hts, if_pos htc] at h
      cases hf : firstUncovered g with
      | none => rw [hf] at h; cases h
      | some c =>
          rw [hf] at h
          cases h
          exact ⟨rfl, htc, hts⟩
  · rw [scanResult_nonpos g tc (le_of_not_lt htc)] at h
    cases h

theorem mem_rowMajor {n m : Nat} {c : Nat × Nat} :
    c ∈ rowMajor n m ↔ c.1 < n ∧ c.2 < m := by
  rcases c with ⟨x, y⟩
  simp [rowMajor, List.mem_flatMap, List.mem_map, List.mem_range, eq_comm]

/-- What `firstUncovered g = some (x, y)` says about the cell. -/
theorem firstUncovered_some {g : CityGrid} {x y : Nat}
    (h : firstUncovered g = some (x, y)) :
    x < g.n ∧ y < g.m ∧ g.grid x y = true ∧ coverageCount g.towers x y = 0 := by
  unfold firstUncovered at h
  have hmem := List.mem_of_find?_eq_some h
  have hpred := List.find?_some h
  simp only [Bool.and_eq_true, beq_iff_eq] at hpred
  have hb := mem_rowMajor.mp hmem
  exact ⟨hb.1, hb.2, hpred.1, hpred.2⟩

/-- Placing at an in-bounds passable cell always succeeds and preserves the
grid fields. -/
theorem place_tower_nat (g : CityGrid) (x y : Nat) (r : Int)
    (hx : x < g.n) (hy : y < g.m) (hg : g.grid x y = true) :
    place_tower g (x : Int) (y : Int) r =
      { g with towers := g.towers ++ [⟨(x : Int), (y : Int), r⟩] } := by
  have hok : PlaceOK g (x : Int) (y : Int) := by
    refine ⟨Int.natCast_nonneg x, ?_, Int.natCast_nonneg y, ?_, ?_⟩
    · exact_mod_cast hx
    · exact_mod_cast hy
    · rw [Int.toNat_natCast, Int.toNat_natCast]
      exact hg
  show (if PlaceOK g (x : Int) (y : Int) then
      { g with towers := g.towers ++ [⟨(x : Int), (y : Int), r⟩] } else g) = _
  rw [if_pos hok]

theorem coverageCount_append (ts us : List Tower) (x y : Nat) :
    coverageCount (ts ++ us) x y = coverageCount ts x y + coverageCount us x y := by
  unfold coverageCount
  rw [List.countP_append]

/-- A tower standing at the scanned cell always covers it: the squared
distance is `0` and any integer squared range is non-negative. -/
theorem coverage_own_cell (x y : Nat) (r : Int) :
    coverageCount [⟨(x : Int), (y : Int), r⟩] x y = 1 := by
  unfold coverageCount cellDist
  simp [sq_nonneg r]

/-- Zero coverage means no tower satisfies the range test; in particular no
tower stands at the cell. -/
theorem coverage_zero_no_tower {ts : List Tower} {x y : Nat}
    (h : coverageCount ts x y = 0) :
    ∀ u ∈ ts, ¬ (u.x = (x : Int) ∧ u.y = (y : Int)) := by
  intro u hu hxy
  have hall := List.countP_eq_zero.mp h u hu
  apply hall
  have : cellDist x y u = 0 := by
    unfold cellDist
    rw [hxy.1, hxy.2]
    ring
  simp [this, sq_nonneg u.r]

theorem countP_le_of_imp {α : Type} (p q : α → Bool) :
    ∀ L : List α, (∀ a ∈ L, q a = true → p a = true) →
      L.countP q ≤ L.countP p := by
  intro L
  induction L with
  | nil => intro _; exact le_refl 0
  | cons a L ih =>
      intro hmono
      rw [List.countP_cons, List.countP_cons]
      have h2 := ih (fun d hd => hmono d (List.mem_cons_of_mem a hd))
      by_cases hqa : q a = true
      · rw [hqa, hmono a (List.mem_cons_self a L) hqa]
        simp only [if_pos rfl, if_true]
        omega
      · rw [Bool.not_eq_true _ |>.mp hqa]
        simp only [Bool.false_eq_true, if_false]
        by_cases hpa : p a = true
        · rw [hpa]
          simp only [if_pos rfl, if_true]
          omega
        · rw [Bool.not_eq_true _ |>.mp hpa]
          simp only [Bool.false_eq_true, if_false]
          omega

theorem countP_lt_of_strict {α : Type} (p q : α → Bool) :
    ∀ L : List α, (∀ a ∈ L, q a = true → p a = true) →
      ∀ c ∈ L, p c = true → q c = false → L.countP q < L.countP p := by
  intro L
  induction L with
  | nil => intro _ c hc; cases hc
  | cons a L ih =>
      intro hmono c hc hp hq
      have hmono2 : ∀ b ∈ L, q b = true → p b = true :=
        fun b hb => hmono b (List.mem_cons_of_mem a hb)
      rw [List.countP_cons, List.countP_cons]
      rcases List.mem_cons.mp hc with rfl | hcL
      · have hle := countP_le_of_imp p q L hmono2
        rw [hp, hq]
        simp only [if_pos rfl, if_true, Bool.false_eq_true, if_false]
        omega
      · have hlt := ih hmono2 c hcL hp hq
        by_cases hqa : q a = true
        · rw [hqa, hmono a (List.mem_cons_self a L) hqa]
          simp only [if_pos rfl, if_true]
          omega
        · rw [Bool.not_eq_true _ |>.mp hqa]
          simp only [Bool.false_eq_true, if_false]
          by_cases hpa : p a = true
          · rw [hpa]
            simp only [if_pos rfl, if_true]
            omega
          · rw [Bool.not_eq_true _ |>.mp hpa]
            simp only [Bool.false_eq_true, if_false]
            omega

/-- Appending the tower placed at the first uncovered cell strictly
decreases the number of uncovered passable cells. -/
theorem uncovered_decreases (g : CityGrid) (x y : Nat) (r : Int)
    (hf : firstUncovered g = some (x, y)) :
    uncoveredCount { g with towers := g.towers ++ [⟨(x : Int), (y : Int), r⟩] } <
      uncoveredCount g := by
  obtain ⟨hx, hy, hg, hcov⟩ := firstUncovered_some hf
  unfold uncoveredCount
  show (rowMajor g.n g.m).countP
      (fun c => g.grid c.1 c.2 &&
        coverageCount (g.towers ++ [⟨(x : Int), (y : Int), r⟩]) c.1 c.2 == 0) <
    (rowMajor g.n g.m).countP
      (fun c => g.grid c.1 c.2 && coverageCount g.towers c.1 c.2 == 0)
  have hmono : ∀ a ∈ rowMajor g.n g.m,
      (g.grid a.1 a.2 &&
        coverageCount (g.towers ++ [⟨(x : Int), (y : Int), r⟩]) a.1 a.2 == 0) = true →
      (g.grid a.1 a.2 && coverageCount g.towers a.1 a.2 == 0) = true := by
    intro a _ hq
    rcases Bool.and_eq_true _ _ |>.mp hq with ⟨hga, hca⟩
    rw [hga, Bool.true_and]
    have hz := beq_iff_eq.mp hca
    rw [coverageCount_append] at hz
    simp [Nat.eq_zero_of_add_eq_zero_right hz]
  have hp : (g.grid x y && coverageCount g.towers x y == 0) = true := by
    simp [hg, hcov]
  have hq : (g.grid x y &&
      coverageCount (g.towers ++ [⟨(x : Int), (y : Int), r⟩]) x y == 0) = false := by
    rw [coverageCount_append, hcov, coverage_own_cell]
    simp
  exact countP_lt_of_strict
    (fun c => g.grid c.1 c.2 && coverageCount g.towers c.1 c.2 == 0)
    (fun c => g.grid c.1 c.2 &&
      coverageCount (g.towers ++ [⟨(x : Int), (y : Int), r⟩]) c.1 c.2 == 0)
    (rowMajor g.n g.m) hmono (x, y) (mem_rowMajor.mpr ⟨hx, hy⟩) hp hq

theorem rowMajor_length (n m : Nat) : (rowMajor n m).length = n * m := by
  unfold rowMajor
  induction n with
  | zero => simp
  | succ k ih =>
      rw [List.range_succ, List.flatMap_append, List.length_append, ih]
      simp [Nat.succ_mul]

theorem uncoveredCount_le (g : CityGrid) : uncoveredCount g ≤ g.n * g.m := by
  calc uncoveredCount g ≤ (rowMajor g.n g.m).length := List.countP_le_length _
  _ = g.n * g.m := rowMajor_length g.n g.m

theorem innerLoop_succ (tt : TowerType) (fuel : Nat) (g : CityGrid) (rem : Int) :
    innerLoop tt (fuel + 1) g rem =
      (if rem < tt.cost then .done g
      else
        match scanResult g tt.coverage with
        | .errOut => .errStop g
        | .nothing => .done g
        | .foundCell x y =>
            innerLoop tt fuel (place_tower g (x : Int) (y : Int) tt.range)
              (rem - tt.cost)) := rfl

theorem innerLoop_stop (tt : TowerType) (fuel : Nat) (g : CityGrid) (rem : Int)
    (hrem : rem < tt.cost) : innerLoop tt (fuel + 1) g rem = .done g := by
  rw [innerLoop_succ, if_pos hrem]

theorem innerLoop_err (tt : TowerType) (fuel : Nat) (g : CityGrid) (rem : Int)
    (hrem : ¬ rem < tt.cost) (hs : scanResult g tt.coverage = .errOut) :
    innerLoop tt (fuel + 1) g rem = .errStop g := by
  rw [innerLoop_succ, if_neg hrem, hs]

theorem innerLoop_none (tt : TowerType) (fuel : Nat) (g : CityGrid) (rem : Int)
    (hrem : ¬ rem < tt.cost) (hs : scanResult g tt.coverage = .nothing) :
    innerLoop tt (fuel + 1) g rem = .done g := by
  rw [innerLoop_succ, if_neg hrem, hs]

theorem innerLoop_found (tt : TowerType) (fuel : Nat) (g : CityGrid) (rem : Int)
    (x y : Nat) (hrem : ¬ rem < tt.cost)
    (hs : scanResult g tt.coverage = .foundCell x y) :
    innerLoop tt (fuel + 1) g rem =
      innerLoop tt fuel (place_tower g (x : Int) (y : Int) tt.range)
        (rem - tt.cost) := by
  rw [innerLoop_succ, if_neg hrem, hs]

theorem innerLoop_fields (tt : TowerType) :
    ∀ (fuel : Nat) (g : CityGrid) (rem : Int),
      (innerLoop tt fuel g rem).grid.n = g.n ∧
        (innerLoop tt fuel g rem).grid.m = g.m ∧
        (innerLoop tt fuel g rem).grid.grid = g.grid := by
  intro fuel
  induction fuel with
  | zero => intro g rem; exact ⟨rfl, rfl, rfl⟩
  | succ fuel ih =>
      intro g rem
      by_cases hrem : rem < tt.cost
      · rw [innerLoop_stop tt fuel g rem hrem]; exact ⟨rfl, rfl, rfl⟩
      · cases hs : scanResult g tt.coverage with
        | errOut => rw [innerLoop_err tt fuel g rem hrem hs]; exact ⟨rfl, rfl, rfl⟩
        | nothing => rw [innerLoop_none tt fuel g rem hrem hs]; exact ⟨rfl, rfl, rfl⟩
        | foundCell x y =>
            obtain ⟨hf, _, _⟩ := scanResult_found hs
            obtain ⟨hx, hy, hg, _⟩ := firstUncovered_some hf
            rw [innerLoop_found tt fuel g rem x y hrem hs,
              place_tower_nat g x y tt.range hx hy hg]
            exact ih _ _

theorem innerLoop_appends (tt : TowerType) :
    ∀ (fuel : Nat) (g : CityGrid) (rem : Int),
      ∃ added : List Tower,
        (innerLoop tt fuel g rem).grid.towers = g.towers ++ added ∧
          PosFresh g.towers added := by
  intro fuel
  induction fuel with
  | zero => intro g rem; exact ⟨[], by simp [innerLoop, InnerOut.grid], trivial⟩
  | succ fuel ih =>
      intro g rem
      by_cases hrem : rem < tt.cost
      · rw [innerLoop_stop tt fuel g rem hrem]
        exact ⟨[], by simp [InnerOut.grid], trivial⟩
      · cases hs : scanResult g tt.coverage with
        | errOut =>
            rw [innerLoop_err tt fuel g rem hrem hs]
            exact ⟨[], by simp [InnerOut.grid], trivial⟩
        | nothing =>
            rw [innerLoop_none tt fuel g rem hrem hs]
            exact ⟨[], by simp [InnerOut.grid], trivial⟩
        | foundCell x y =>
            obtain ⟨hf, _, _⟩ := scanResult_found hs
            obtain ⟨hx, hy, hg, hcov⟩ := firstUncovered_some hf
            rw [innerLoop_found tt fuel g rem x y hrem hs,
              place_tower_nat g x y tt.range hx hy hg]
            obtain ⟨a2, ha2, hfresh2⟩ :=
              ih { g with towers := g.towers ++ [⟨(x : Int), (y : Int), tt.range⟩] }
                (rem - tt.cost)
            refine ⟨⟨(x : Int), (y : Int), tt.range⟩ :: a2, ?_, ?_⟩
            · rw [ha2]; simp
            · exact ⟨coverage_zero_no_tower hcov, hfresh2⟩

theorem innerLoop_no_fuelOut (tt : TowerType) :
    ∀ (fuel : Nat) (g : CityGrid) (rem : Int), uncoveredCount g < fuel →
      ∀ gr : CityGrid, innerLoop tt fuel g rem ≠ .fuelOut gr := by
  intro fuel
  induction fuel with
  | zero => intro g rem h; exact absurd h (Nat.not_lt_zero _)
  | succ fuel ih =>
      intro g rem h gr
      by_cases hrem : rem < tt.cost
      · rw [innerLoop_stop tt fuel g rem hrem]; intro hcon; cases hcon
      · cases hs : scanResult g tt.coverage with
        | errOut =>
            rw [innerLoop_err tt fuel g rem hrem hs]; intro hcon; cases hcon
        | nothing =>
            rw [innerLoop_none tt fuel g rem hrem hs]; intro hcon; cases hcon
        | foundCell x y =>
            obtain ⟨hf, _, _⟩ := scanResult_found hs
            obtain ⟨hx, hy, hg, _⟩ := firstUncovered_some hf
            rw [innerLoop_found tt fuel g rem x y hrem hs,
              place_tower_nat g x y tt.range hx hy hg]
            apply ih
            have hdec := uncovered_decreases g x y tt.range hf
            omega

theorem innerLoop_budget (tt : TowerType) (hc : 0 ≤ tt.cost) :
    ∀ (fuel : Nat) (g : CityGrid) (rem : Int), 0 ≤ rem →
      (((innerLoop tt fuel g rem).grid.towers.length : Int) - g.towers.length) *
          tt.cost ≤ rem := by
  have hzero : ∀ (g : CityGrid) (rem : Int), 0 ≤ rem →
      (((g.towers.length : Int)) - g.towers.length) * tt.cost ≤ rem := by
    intro g rem hr
    have : ((g.towers.length : Int) - g.towers.length) * tt.cost = 0 := by ring
    rw [this]; exact hr
  intro fuel
  induction fuel with
  | zero => intro g rem hr; exact hzero g rem hr
  | succ fuel ih =>
      intro g rem hr
      by_cases hrem : rem < tt.cost
      · rw [innerLoop_stop tt fuel g rem hrem]; exact hzero g rem hr
      · have hcost : tt.cost ≤ rem := le_of_not_lt hrem
        cases hs : scanResult g tt.coverage with
        | errOut => rw [innerLoop_err tt fuel g rem hrem hs]; exact hzero g rem hr
        | nothing => rw [innerLoop_none tt fuel g rem hrem hs]; exact hzero g rem hr
        | foundCell x y =>
            obtain ⟨hf, _, _⟩ := scanResult_found hs
            obtain ⟨hx, hy, hg, _⟩ := firstUncovered_some hf
            rw [innerLoop_found tt fuel g rem x y hrem hs,
              place_tower_nat g x y tt.range hx hy hg]
            have hr2 : 0 ≤ rem - tt.cost := by omega
            have h2 := ih
              { g with towers := g.towers ++ [⟨(x : Int), (y : Int), tt.range⟩] }
              (rem - tt.cost) hr2
            have hlen : (({ g with towers :=
                g.towers ++ [⟨(x : Int), (y : Int), tt.range⟩] } :
                  CityGrid).towers.length : Int) = (g.towers.length : Int) + 1 := by
              simp
            rw [hlen] at h2
            ring_nf at h2 ⊢
            linarith [h2]

theorem optLoop_cons (budget : Int) (tt : TowerType) (rest : List TowerType)
    (g : CityGrid) :
    optLoop budget (tt :: rest) g =
      (match innerLoop tt (g.n * g.m + 1) g budget with
        | .done g2 => optLoop budget rest g2
        | .errStop g2 => .errStop g2
        | .fuelOut g2 => .fuelOut g2) := rfl

theorem posFresh_append :
    ∀ (a1 base a2 : List Tower),
      PosFresh base a1 → PosFresh (base ++ a1) a2 → PosFresh base (a1 ++ a2) := by
  intro a1
  induction a1 with
  | nil => intro base a2 _ h2; simpa using h2
  | cons t a1 ih =>
      intro base a2 h1 h2
      refine ⟨h1.1, ?_⟩
      apply ih (base ++ [t]) a2 h1.2
      rw [List.append_cons] at h2
      exact h2

theorem optLoop_no_fuelOut (budget : Int) :
    ∀ (types : List TowerType) (g gr : CityGrid),
      optLoop budget types g ≠ .fuelOut gr := by
  intro types
  induction types with
  | nil => intro g gr hcon; cases hcon
  | cons tt rest ih =>
      intro g gr
      have hfuel : uncoveredCount g < g.n * g.m + 1 :=
        Nat.lt_succ_of_le (uncoveredCount_le g)
      rw [optLoop_cons]
      cases hinner : innerLoop tt (g.n * g.m + 1) g budget with
      | done g2 => exact ih g2 gr
      | errStop g2 => intro hcon; cases hcon
      | fuelOut g2 => exact absurd hinner (innerLoop_no_fuelOut tt _ g budget hfuel g2)

theorem optLoop_appends (budget : Int) :
    ∀ (types : List TowerType) (g : CityGrid),
      ∃ added : List Tower,
        (optLoop budget types g).grid.towers = g.towers ++ added ∧
          PosFresh g.towers added := by
  intro types
  induction types with
  | nil => intro g; exact ⟨[], by simp [optLoop, OptOut.grid], trivial⟩
  | cons tt rest ih =>
      intro g
      obtain ⟨a1, ha1, hf1⟩ := innerLoop_appends tt (g.n * g.m + 1) g budget
      rw [optLoop_cons]
      cases hinner : innerLoop tt (g.n * g.m + 1) g budget with
      | done g2 =>
          rw [hinner] at ha1
          simp only [InnerOut.grid] at ha1
          obtain ⟨a2, ha2, hf2⟩ := ih g2
          refine ⟨a1 ++ a2, ?_, ?_⟩
          · show (optLoop budget rest g2).grid.towers = g.towers ++ (a1 ++ a2)
            rw [ha2, ha1, List.append_assoc]
          · exact posFresh_append a1 g.towers a2 hf1 (by rw [← ha1]; exact hf2)
      | errStop g2 =>
          rw [hinner] at ha1
          simp only [InnerOut.grid] at ha1
          exact ⟨a1, ha1, hf1⟩
      | fuelOut g2 =>
          rw [hinner] at ha1
          simp only [InnerOut.grid] at ha1
          exact ⟨a1, ha1, hf1⟩

/-- C7: `optimize_tower_placement` terminates for every finite grid,
registry, budget and tower-type list: the modelling fuel bound
`n*m + 1` per type is never exhausted, because a scan that finds no
candidate breaks out of the per-type loop and every successful placement
strictly decreases the number of uncovered passable cells; in particular a
type with `cost = 0` and no qualifying cell exits its inner loop on the very
first scan (here with only one unit of fuel). -/
theorem optimize_terminates (g : CityGrid) (budget : Int) (types : List TowerType)
    (hb : 0 ≤ budget) (ht : ∀ tt ∈ types, 0 ≤ tt.range ∧ 0 ≤ tt.cost) :
    (optimize_tower_placement g budget types).isFuelOut = false
    ∧ innerLoop ⟨0, 5, 0⟩ 1 blockedGrid 0 = .done blockedGrid := by
  constructor
  · unfold optimize_tower_placement
    cases hres : optLoop budget types g with
    | ok g2 => rfl
    | errStop g2 => rfl
    | fuelOut g2 => exact absurd hres (optLoop_no_fuelOut budget types g g2)
  · rfl

/-- Witness for C7 at a concrete input. -/
theorem optimize_terminates_witness :
    (optimize_tower_placement freeCellGrid 1 [⟨1, 10, 1⟩]).isFuelOut = false :=
  (optimize_terminates freeCellGrid 1 [⟨1, 10, 1⟩] (by norm_num)
    (by intro tt htt; simp at htt; rw [htt]; exact ⟨by norm_num, by norm_num⟩)).1

/-- C6: the registry length never decreases under `optimize_tower_placement`
(whatever the outcome), and within the processing of a single tower type the
total spend — number of towers added for that type times its cost — never
exceeds the (re-initialized) budget. -/
theorem optimize_monotone_budget :
    (∀ (g : CityGrid) (budget : Int) (types : List TowerType),
      g.towers.length ≤ (optimize_tower_placement g budget types).grid.towers.length)
    ∧ (∀ (tt : TowerType) (fuel : Nat) (g : CityGrid) (budget : Int),
        0 ≤ budget → 0 ≤ tt.cost →
        (((innerLoop tt fuel g budget).grid.towers.length : Int) -
            g.towers.length) * tt.cost ≤ budget) := by
  constructor
  · intro g budget types
    obtain ⟨added, ha, _⟩ := optLoop_appends budget types g
    unfold optimize_tower_placement
    rw [ha]
    simp
  · intro tt fuel g budget hb hcst
    exact innerLoop_budget tt hcst fuel g budget hb

/-- Witness for C6 at concrete inputs. -/
theorem optimize_monotone_budget_witness :
    pairGrid.towers.length ≤
      (optimize_tower_placement pairGrid 5 [⟨0, 1, 2⟩]).grid.towers.length
    ∧ (((innerLoop ⟨0, 1, 2⟩ 3 pairGrid 5).grid.towers.length : Int) -
        pairGrid.towers.length) * (2 : Int) ≤ 5 :=
  ⟨optimize_monotone_budget.1 pairGrid 5 [⟨0, 1, 2⟩],
    optimize_monotone_budget.2 ⟨0, 1, 2⟩ 3 pairGrid 5 (by norm_num) (by norm_num)⟩

/-- C10: provided the pre-existing towers have non-negative ranges (in fact
unconditionally), every tower added during one `optimize_tower_placement`
call stands at a cell occupied by no earlier tower: a cell holding a tower
has coverage at least 1 (its own tower is at squared distance 0 ≤ range²),
so it never qualifies as an uncovered candidate.  Hence the added towers
occupy pairwise-distinct cells, all distinct from the pre-existing towers'
cells. -/
theorem optimize_distinct_cells (g : CityGrid) (budget : Int)
    (types : List TowerType) (hr : ∀ t ∈ g.towers, 0 ≤ t.r) :
    ∃ added : List Tower,
      (optimize_tower_placement g budget types).grid.towers = g.towers ++ added ∧
        PosFresh g.towers added :=
  optLoop_appends budget types g

/-- Witness for C10 at a concrete input. -/
theorem optimize_distinct_cells_witness :
    ∃ added : List Tower,
      (optimize_tower_placement partialGrid 2 [⟨0, 7, 1⟩]).grid.towers =
        partialGrid.towers ++ added ∧ PosFresh partialGrid.towers added :=
  optimize_distinct_cells partialGrid 2 [⟨0, 7, 1⟩] (by decide)

/-- C2 counterexample: on a 1×1 all-passable grid with an empty registry,
budget 1 and the single type `{range 1, coverage 0, cost 0}`, a passable
zero-coverage cell exists and the budget covers the cost, yet
`optimize_tower_placement` places nothing — the guard
`tower_type['coverage'] > best_coverage` never fires when the coverage score
is not positive, so the claim as stated is false. -/
theorem optimize_first_cell_counterexample :
    (firstUncovered freeCellGrid).isSome = true
    ∧ (⟨1, 0, 0⟩ : TowerType).cost ≤ (1 : Int)
    ∧ optimize_tower_placement freeCellGrid 1 [⟨1, 0, 0⟩] = .ok freeCellGrid := by
  refine ⟨rfl, by norm_num, rfl⟩

/-- C2 amended: every tower the optimizer adds is placed at the first cell
in row-major order that is passable and has zero coverage against the
current registry, and such a placement happens whenever a qualifying cell
exists, the remaining budget covers the type's cost, the type's coverage
score is positive, and the registry is non-empty; with an empty registry, a
positive score and a qualifying cell the scan instead raises `NameError`
(the loop-local `distance` was never bound) and the call aborts. -/
theorem optimize_first_cell (g : CityGrid) (tt : TowerType) (fuel : Nat)
    (rem : Int) :
    (g.towers ≠ [] →
      scanResult g tt.coverage =
        (if 0 < tt.coverage then
          (match firstUncovered g with
            | some c => ScanOut.foundCell c.1 c.2
            | none => ScanOut.nothing)
        else ScanOut.nothing))
    ∧ (∀ x y : Nat, tt.cost ≤ rem → 0 < tt.coverage → g.towers ≠ [] →
        firstUncovered g = some (x, y) →
          innerLoop tt (fuel + 1) g rem =
            innerLoop tt fuel (place_tower g (x : Int) (y : Int) tt.range)
              (rem - tt.cost)
          ∧ (place_tower g (x : Int) (y : Int) tt.range).towers =
              g.towers ++ [⟨(x : Int), (y : Int), tt.range⟩])
    ∧ (tt.cost ≤ rem → 0 < tt.coverage → g.towers = [] →
        (firstUncovered g).isSome = true →
          innerLoop tt (fuel + 1) g rem = .errStop g) := by
  refine ⟨fun hts => scanResult_nonempty g tt.coverage hts, ?_, ?_⟩
  · intro x y hcost htc hts hf
    have hs : scanResult g tt.coverage = .foundCell x y := by
      rw [scanResult_nonempty g tt.coverage hts, if_pos htc, hf]
    have hrem : ¬ rem < tt.cost := not_lt_of_le hcost
    obtain ⟨hx, hy, hg, _⟩ := firstUncovered_some hf
    refine ⟨innerLoop_found tt fuel g rem x y hrem hs, ?_⟩
    rw [place_tower_nat g x y tt.range hx hy hg]
  · intro hcost htc hts hf
    have hrem : ¬ rem < tt.cost := not_lt_of_le hcost
    have hany : (rowMajor g.n g.m).any (fun c => g.grid c.1 c.2) = true := by
      rw [Option.isSome_iff_exists] at hf
      obtain ⟨⟨x, y⟩, hxy⟩ := hf
      obtain ⟨hx, hy, hg, _⟩ := firstUncovered_some hxy
      rw [List.any_eq_true]
      exact ⟨(x, y), mem_rowMajor.mpr ⟨hx, hy⟩, hg⟩
    have hs : scanResult g tt.coverage = .errOut := by
      rw [scanResult_empty g tt.coverage hts htc, if_pos hany]
    exact innerLoop_err tt fuel g rem hrem hs

/-- Witness for C2 at concrete inputs: with one range-0 tower at `(0, 0)` on
a 2×2 grid, the first uncovered cell is `(0, 1)` and the optimizer's next
step places a tower exactly there; with an empty registry and positive
coverage score the loop aborts with `NameError`. -/
theorem optimize_first_cell_witness :
    (innerLoop ⟨0, 10, 1⟩ 1 partialGrid 5 =
      innerLoop ⟨0, 10, 1⟩ 0
        (place_tower partialGrid ((0 : Nat) : Int) ((1 : Nat) : Int) 0) 4
    ∧ (place_tower partialGrid ((0 : Nat) : Int) ((1 : Nat) : Int) 0).towers =
        partialGrid.towers ++ [⟨((0 : Nat) : Int), ((1 : Nat) : Int), 0⟩])
    ∧ innerLoop ⟨1, 10, 1⟩ 1 freeCellGrid 5 = .errStop freeCellGrid := by
  constructor
  · have h := (optimize_first_cell partialGrid ⟨0, 10, 1⟩ 0 5).2.1 0 1
      (by norm_num) (by norm_num) (by simp [partialGrid]) (by decide)
    exact h
  · exact (optimize_first_cell freeCellGrid ⟨1, 10, 1⟩ 0 5).2.2
      (by norm_num) (by norm_num) rfl (by decide)

theorem dfp_target (G : Graph) (len t fuel : Nat) (visited : List Nat) :
    duplicateFreePaths G len t fuel t visited = [[t]] := by
  unfold duplicateFreePaths
  rw [if_pos rfl]

theorem dfp_zero (G : Graph) (len t : Nat) (u : Nat) (visited : List Nat)
    (hu : u ≠ t) : duplicateFreePaths G len t 0 u visited = [] := by
  unfold duplicateFreePaths
  rw [if_neg hu]

theorem dfp_succ (G : Graph) (len t fuel : Nat) (u : Nat) (visited : List Nat)
    (hu : u ≠ t) :
    duplicateFreePaths G len t (fuel + 1) u visited =
      ((nbrs G len u).filter (fun v => ¬ visited.contains v)).flatMap
        (fun v => (duplicateFreePaths G len t fuel v (v :: visited)).map (u :: ·)) := by
  conv_lhs => unfold duplicateFreePaths
  rw [if_neg hu]

theorem mem_nbrs {G : Graph} {len u v : Nat} :
    v ∈ nbrs G len u ↔ v < len ∧ (G.adj u v).isSome = true := by
  unfold nbrs
  rw [List.mem_filter, List.mem_range]

theorem dfp_sound (G : Graph) (len t : Nat) :
    ∀ (fuel u : Nat) (visited : List Nat) (p : List Nat),
      p ∈ duplicateFreePaths G len t fuel u visited →
        p.head? = some u ∧ p.getLast? = some t ∧
          List.Chain' (fun a b => (G.adj a b).isSome = true) p := by
  intro fuel
  induction fuel with
  | zero =>
      intro u visited p hp
      by_cases hu : u = t
      · subst hu
        rw [dfp_target] at hp
        rcases List.mem_singleton.mp hp with rfl
        exact ⟨rfl, rfl, List.chain'_singleton u⟩
      · rw [dfp_zero G len t u visited hu] at hp
        cases hp
  | succ fuel ih =>
      intro u visited p hp
      by_cases hu : u = t
      · subst hu
        rw [dfp_target] at hp
        rcases List.mem_singleton.mp hp with rfl
        exact ⟨rfl, rfl, List.chain'_singleton u⟩
      · rw [dfp_succ G len t fuel u visited hu] at hp
        rw [List.mem_flatMap] at hp
        obtain ⟨v, hv, hpm⟩ := hp
        rw [List.mem_map] at hpm
        obtain ⟨q, hq, rfl⟩ := hpm
        obtain ⟨hqh, hql, hqc⟩ := ih v (v :: visited) q hq
        have hadj : (G.adj u v).isSome = true :=
          (mem_nbrs.mp (List.mem_of_mem_filter hv)).2
        refine ⟨rfl, ?_, ?_⟩
        · cases q with
          | nil => cases hqh
          | cons a q2 =>
              rw [List.getLast?_cons_cons]
              exact hql
        · rw [List.chain'_cons']
          refine ⟨?_, hqc⟩
          intro z hz
          rw [hqh] at hz
          rcases Option.mem_some_iff.mp hz with rfl
          exact hadj

theorem pickMin_cons_none (G : Graph) (q : List Nat) (L : List (List Nat))
    (hm : pickMin G L = none) : pickMin G (q :: L) = some q := by
  unfold pickMin
  rw [hm]

theorem pickMin_cons_some (G : Graph) (q : List Nat) (L : List (List Nat))
    (r : List Nat) (hm : pickMin G L = some r) :
    pickMin G (q :: L) = if walkW G r < walkW G q then some r else some q := by
  unfold pickMin
  rw [hm]

theorem pickMin_eq_none {G : Graph} : ∀ {L : List (List Nat)},
    pickMin G L = none → L = [] := by
  intro L h
  cases L with
  | nil => rfl
  | cons a M =>
      exfalso
      cases hM : pickMin G M with
      | none => rw [pickMin_cons_none G a M hM] at h; cases h
      | some b =>
          rw [pickMin_cons_some G a M b hM] at h
          by_cases hab : walkW G b < walkW G a
          · rw [if_pos hab] at h; cases h
          · rw [if_neg hab] at h; cases h

theorem pickMin_mem (G : Graph) :
    ∀ (L : List (List Nat)) (p : List Nat), pickMin G L = some p → p ∈ L := by
  intro L
  induction L with
  | nil => intro p hp; cases hp
  | cons q L ih =>
      intro p hp
      cases hm : pickMin G L with
      | none =>
          rw [pickMin_cons_none G q L hm] at hp
          cases hp
          exact List.mem_cons_self q L
      | some r =>
          rw [pickMin_cons_some G q L r hm] at hp
          by_cases hlt : walkW G r < walkW G q
          · rw [if_pos hlt] at hp
            cases hp
            exact List.mem_cons_of_mem q (ih p hm)
          · rw [if_neg hlt] at hp
            cases hp
            exact List.mem_cons_self q L

theorem pickMin_min (G : Graph) :
    ∀ (L : List (List Nat)) (p : List Nat), pickMin G L = some p →
      ∀ q ∈ L, walkW G p ≤ walkW G q := by
  intro L
  induction L with
  | nil => intro p hp; cases hp
  | cons r L ih =>
      intro p hp q hq
      cases hm : pickMin G L with
      | none =>
          rw [pickMin_cons_none G r L hm] at hp
          cases hp
          rw [pickMin_eq_none hm] at hq
          rcases List.mem_singleton.mp hq with rfl
          exact le_refl _
      | some r2 =>
          rw [pickMin_cons_some G r L r2 hm] at hp
          rcases List.mem_cons.mp hq with rfl | hqL
          · by_cases hlt : walkW G r2 < walkW G q
            · rw [if_pos hlt] at hp; cases hp; exact le_of_lt hlt
            · rw [if_neg hlt] at hp; cases hp; exact le_refl _
          · by_cases hlt : walkW G r2 < walkW G r
            · rw [if_pos hlt] at hp; cases hp; exact ih p hm q hqL
            · rw [if_neg hlt] at hp
              cases hp
              exact le_trans (le_of_not_lt hlt) (ih r2 hm q hqL)

theorem walkW_nonneg (G : Graph) (Hw : ∀ u v w, G.adj u v = some w → 0 ≤ w) :
    ∀ p : List Nat, 0 ≤ walkW G p := by
  intro p
  induction p with
  | nil => exact le_refl 0
  | cons u p ih =>
      cases p with
      | nil => exact le_refl 0
      | cons v rest =>
          show 0 ≤ (G.adj u v).getD 0 + walkW G (v :: rest)
          have h1 : 0 ≤ (G.adj u v).getD 0 := by
            cases ha : G.adj u v with
            | none => exact le_refl 0
            | some w => exact Hw u v w ha
          exact add_nonneg h1 ih

theorem walkW_append_cons (G : Graph) :
    ∀ (a : List Nat) (b : Nat) (c : List Nat),
      walkW G (a ++ b :: c) = walkW G (a ++ [b]) + walkW G (b :: c) := by
  intro a
  induction a with
  | nil =>
      intro b c
      show walkW G (b :: c) = walkW G [b] + walkW G (b :: c)
      show walkW G (b :: c) = 0 + walkW G (b :: c)
      rw [zero_add]
  | cons x a ih =>
      intro b c
      cases a with
      | nil =>
          show (G.adj x b).getD 0 + walkW G (b :: c) =
            ((G.adj x b).getD 0 + walkW G [b]) + walkW G (b :: c)
          show (G.adj x b).getD 0 + walkW G (b :: c) =
            ((G.adj x b).getD 0 + 0) + walkW G (b :: c)
          rw [add_zero]
      | cons y a2 =>
          show (G.adj x y).getD 0 + walkW G ((y :: a2) ++ b :: c) =
            ((G.adj x y).getD 0 + walkW G ((y :: a2) ++ [b])) + walkW G (b :: c)
          rw [ih b c, add_assoc]

theorem dfp_complete (G : Graph) (len t : Nat)
    (Hdom : ∀ u v, (G.adj u v).isSome = true → v < len) :
    ∀ (p : List Nat), ∀ (fuel u : Nat) (visited : List Nat),
      p.head? = some u → p.getLast? = some t →
      List.Chain' (fun a b => (G.adj a b).isSome = true) p → p.Nodup →
      (∀ x ∈ p.tail, visited.contains x = false) →
      p.length ≤ fuel + 1 →
      p ∈ duplicateFreePaths G len t fuel u visited := by
  intro p
  induction p with
  | nil => intro fuel u visited hh; cases hh
  | cons a rest ih =>
      intro fuel u visited hh hl hc hnd hvis hlen
      have hau : a = u := by simpa using hh
      subst hau
      cases rest with
      | nil =>
          have hat : a = t := by simpa using hl
          subst hat
          rw [dfp_target]
          exact List.mem_singleton.mpr rfl
      | cons b rest2 =>
          have hlast2 : (b :: rest2).getLast? = some t := by
            rw [← List.getLast?_cons_cons (a := a)]
            exact hl
          have hne : a ≠ t := by
            intro hat
            subst hat
            have htmem : a ∈ b :: rest2 := by
              obtain ⟨hne2, heq⟩ := List.mem_getLast?_eq_getLast
                (show a ∈ (b :: rest2).getLast? from hlast2)
              rw [heq]
              exact List.getLast_mem hne2
            exact (List.nodup_cons.mp hnd).1 htmem
          cases fuel with
          | zero =>
              exfalso
              have h2 : (a :: b :: rest2).length ≤ 1 := hlen
              simp at h2
          | succ f =>
              rw [dfp_succ G len t f a visited hne, List.mem_flatMap]
              have hadj : (G.adj a b).isSome = true := (List.chain'_cons.mp hc).1
              refine ⟨b, ?_, ?_⟩
              · rw [List.mem_filter]
                refine ⟨mem_nbrs.mpr ⟨Hdom a b hadj, hadj⟩, ?_⟩
                have hb := hvis b (List.mem_cons_self b rest2)
                simpa using hb
              · rw [List.mem_map]
                refine ⟨b :: rest2, ?_, rfl⟩
                apply ih f b (b :: visited) rfl hlast2
                  (List.chain'_cons.mp hc).2 (List.nodup_cons.mp hnd).2
                · intro x hx
                  have hxv : visited.contains x = false :=
                    hvis x (List.mem_cons_of_mem b hx)
                  have hxb : x ≠ b := by
                    intro hxb
                    subst hxb
                    exact (List.nodup_cons.mp (List.nodup_cons.mp hnd).2).1 hx
                  have hxv2 : x ∉ visited := by simpa using hxv
                  simp [hxb, hxv2]
                · have h2 : (a :: b :: rest2).length ≤ f + 2 := hlen
                  simpa using h2

theorem not_nodup_split {α : Type} [DecidableEq α] :
    ∀ l : List α, ¬ l.Nodup →
      ∃ (a : α) (l1 l2 l3 : List α), l = l1 ++ a :: (l2 ++ a :: l3) := by
  intro l
  induction l with
  | nil => intro h; exact absurd List.nodup_nil h
  | cons x xs ih =>
      intro h
      by_cases hx : x ∈ xs
      · obtain ⟨l2, l3, rfl⟩ := List.append_of_mem hx
        exact ⟨x, [], l2, l3, rfl⟩
      · have hxs : ¬ xs.Nodup := fun hnd => h (List.nodup_cons.mpr ⟨hx, hnd⟩)
        obtain ⟨a, l1, l2, l3, rfl⟩ := ih hxs
        exact ⟨a, x :: l1, l2, l3, rfl⟩

theorem getLast?_append_cons {α : Type} :
    ∀ (l1 : List α) (v : α) (l2 : List α),
      (l1 ++ v :: l2).getLast? = (v :: l2).getLast? := by
  intro l1
  induction l1 with
  | nil => intro v l2; rfl
  | cons x l1 ih =>
      intro v l2
      rw [List.cons_append]
      cases hL : l1 ++ v :: l2 with
      | nil => exact absurd hL (by simp)
      | cons y L2 => rw [List.getLast?_cons_cons, ← hL, ih v l2]

theorem chain'_remove_cycle {α : Type} {R : α → α → Prop} (l1 l2 l3 : List α)
    (v : α) (h : List.Chain' R (l1 ++ v :: (l2 ++ v :: l3))) :
    List.Chain' R (l1 ++ v :: l3) := by
  rw [List.chain'_append] at h
  obtain ⟨h1, hX, hlink⟩ := h
  have hX2 : List.Chain' R ((v :: l2) ++ (v :: l3)) := hX
  rw [List.chain'_append] at hX2
  obtain ⟨_, h3, _⟩ := hX2
  rw [List.chain'_append]
  refine ⟨h1, h3, ?_⟩
  intro x hx y hy
  have hyv : v = y := by simpa using hy
  rw [← hyv]
  exact hlink x hx v rfl

/-- Any walk contains a duplicate-free walk between the same endpoints of no
greater total weight (weights are non-negative, so cutting a cycle never
increases the weight). -/
theorem walk_to_nodup (G : Graph)
    (Hw : ∀ u v w, G.adj u v = some w → 0 ≤ w) (s t : Nat) :
    ∀ p : List Nat, IsWalk G s t p →
      ∃ q, IsWalk G s t q ∧ q.Nodup ∧ walkW G q ≤ walkW G p ∧
        ∀ x ∈ q, x ∈ p := by
  have main : ∀ (n : Nat) (p : List Nat), p.length ≤ n → IsWalk G s t p →
      ∃ q, IsWalk G s t q ∧ q.Nodup ∧ walkW G q ≤ walkW G p ∧
        ∀ x ∈ q, x ∈ p := by
    intro n
    induction n with
    | zero =>
        intro p hlen hw
        cases p with
        | nil => cases hw.1
        | cons a p2 => simp at hlen
    | succ n ih =>
        intro p hlen hw
        by_cases hnd : p.Nodup
        · exact ⟨p, hw, hnd, le_refl _, fun x hx => hx⟩
        · obtain ⟨v, l1, l2, l3, rfl⟩ := not_nodup_split p hnd
          obtain ⟨hh, hl, hc⟩ := hw
          have hq_walk : IsWalk G s t (l1 ++ v :: l3) := by
            refine ⟨?_, ?_, chain'_remove_cycle l1 l2 l3 v hc⟩
            · cases l1 with
              | nil => exact hh
              | cons x l1b => exact hh
            · rw [getLast?_append_cons]
              rw [getLast?_append_cons] at hl
              have h2 : (v :: (l2 ++ v :: l3)).getLast? =
                  ((v :: l2) ++ (v :: l3)).getLast? := rfl
              rw [h2, getLast?_append_cons] at hl
              exact hl
          have hq_len : (l1 ++ v :: l3).length ≤ n := by
            have h1 : (l1 ++ v :: (l2 ++ v :: l3)).length ≤ n + 1 := hlen
            simp only [List.length_append, List.length_cons] at h1 ⊢
            omega
          have hq_w : walkW G (l1 ++ v :: l3) ≤
              walkW G (l1 ++ v :: (l2 ++ v :: l3)) := by
            rw [walkW_append_cons G l1 v l3,
              walkW_append_cons G l1 v (l2 ++ v :: l3)]
            have hsplit : walkW G (v :: (l2 ++ v :: l3)) =
                walkW G ((v :: l2) ++ [v]) + walkW G (v :: l3) :=
              walkW_append_cons G (v :: l2) v l3
            rw [hsplit]
            have h0 := walkW_nonneg G Hw ((v :: l2) ++ [v])
            linarith
          obtain ⟨q2, hq2w, hq2nd, hq2le, hq2mem⟩ :=
            ih (l1 ++ v :: l3) hq_len hq_walk
          refine ⟨q2, hq2w, hq2nd, le_trans hq2le hq_w, ?_⟩
          intro x hx
          have hxq := hq2mem x hx
          simp only [List.mem_append, List.mem_cons] at hxq ⊢
          tauto
  intro p hw
  exact main p.length p (le_refl _) hw

theorem chain_nodes_lt (G : Graph) (len : Nat)
    (Hdom2 : ∀ u v, (G.adj u v).isSome = true → u < len ∧ v < len) :
    ∀ p : List Nat,
      List.Chain' (fun a b => (G.adj a b).isSome = true) p →
        2 ≤ p.length → ∀ x ∈ p, x < len := by
  intro p
  induction p with
  | nil => intro _ h; simp at h
  | cons a p ih =>
      intro hc hlen x hx
      cases p with
      | nil => simp at hlen
      | cons b p2 =>
          have hab : (G.adj a b).isSome = true := (List.chain'_cons.mp hc).1
          rcases List.mem_cons.mp hx with rfl | hx2
          · exact (Hdom2 x b hab).1
          · cases p2 with
            | nil =>
                rcases List.mem_singleton.mp hx2 with rfl
                exact (Hdom2 a x hab).2
            | cons c p3 =>
                exact ih (List.chain'_cons.mp hc).2 (by simp) x hx2

theorem nodup_lt_length_le (len : Nat) (p : List Nat) (hnd : p.Nodup)
    (hlt : ∀ x ∈ p, x < len) : p.length ≤ len := by
  have hsub : p.toFinset ⊆ Finset.range len := by
    intro x hx
    rw [List.mem_toFinset] at hx
    rw [Finset.mem_range]
    exact hlt x hx
  have hcard := Finset.card_le_card hsub
  rw [List.toFinset_card_of_nodup hnd, Finset.card_range] at hcard
  exact hcard

theorem chain_edge_into_last {R : Nat → Nat → Prop} :
    ∀ (p : List Nat) (a b : Nat), List.Chain' R (a :: p) →
      (a :: p).getLast? = some b → p ≠ [] → ∃ c, R c b := by
  intro p
  induction p with
  | nil => intro a b _ _ h; exact absurd rfl h
  | cons x rest ih =>
      intro a b hc hl _
      cases rest with
      | nil =>
          have hax : R a x := (List.chain'_cons.mp hc).1
          have hxb : x = b := by simpa using hl
          subst hxb
          exact ⟨a, hax⟩
      | cons y rest2 =>
          apply ih x b (List.chain'_cons.mp hc).2 ?_ (by simp)
          rw [← List.getLast?_cons_cons (a := a)]
          exact hl

/-- No walk can end at an index with no incident edge (an absent graph
node). -/
theorem no_walk_to_absent (ts : List Tower) (s t : Nat) (hst : s ≠ t)
    (h : hasNode (buildGraph ts) ts.length t = false) :
    ¬ ∃ p, IsWalk (buildGraph ts) s t p := by
  rintro ⟨p, hh, hl, hc⟩
  cases p with
  | nil => cases hh
  | cons a p2 =>
      have has : a = s := by simpa using hh
      subst has
      cases p2 with
      | nil =>
          have : a = t := by simpa using hl
          exact hst this
      | cons b p3 =>
          obtain ⟨c, hcb⟩ := chain_edge_into_last (b :: p3) a t hc hl (by simp)
          obtain ⟨w, hw⟩ := Option.isSome_iff_exists.mp hcb
          obtain ⟨hcl, htl⟩ := buildGraph_adj_bounds hw
          have hsymm : (buildGraph ts).adj t c = some w := by
            rw [(buildGraph_edge_iff ts t c).2.1]
            exact hw
          have h2 : (List.range ts.length).any
              (fun v => ((buildGraph ts).adj t v).isSome) = false := h
          have hall := List.any_eq_false.mp h2 c (List.mem_range.mpr hcl)
          rw [hsymm] at hall
          exact hall rfl

theorem minPath_isWalk {G : Graph} {len s t : Nat} {p : List Nat}
    (h : minPath G len s t = some p) : IsWalk G s t p := by
  unfold minPath at h
  have hmem := pickMin_mem G _ p h
  obtain ⟨hh, hl, hc⟩ := dfp_sound G len t len s [s] p hmem
  exact ⟨hh, hl, hc⟩

theorem walk_nodup_mem_dfp {G : Graph} {len s t : Nat}
    (Hw : ∀ u v w, G.adj u v = some w → 0 ≤ w)
    (Hdom2 : ∀ u v, (G.adj u v).isSome = true → u < len ∧ v < len)
    (hst : s ≠ t) :
    ∀ q, IsWalk G s t q →
      ∃ q2, q2 ∈ duplicateFreePaths G len t len s [s] ∧
        walkW G q2 ≤ walkW G q := by
  intro q hq
  obtain ⟨q2, hq2w, hq2nd, hq2le, _⟩ := walk_to_nodup G Hw s t q hq
  obtain ⟨hh2, hl2, hc2⟩ := hq2w
  have hlen2 : 2 ≤ q2.length := by
    cases q2 with
    | nil => cases hh2
    | cons a q3 =>
        cases q3 with
        | nil =>
            have h1 : a = s := by simpa using hh2
            have h2 : a = t := by simpa using hl2
            subst h1
            exact absurd h2 hst
        | cons b q4 => simp
  have hnodes : ∀ x ∈ q2, x < len := chain_nodes_lt G len Hdom2 q2 hc2 hlen2
  have hq2len : q2.length ≤ len := nodup_lt_length_le len q2 hq2nd hnodes
  have hmem : q2 ∈ duplicateFreePaths G len t len s [s] := by
    apply dfp_complete G len t (fun u v hv => (Hdom2 u v hv).2) q2 len s [s]
      hh2 hl2 hc2 hq2nd
    · intro x hx
      have hxs : x ≠ s := by
        cases q2 with
        | nil => cases hh2
        | cons a q3 =>
            have has : a = s := by simpa using hh2
            subst has
            intro hxa
            subst hxa
            exact (List.nodup_cons.mp hq2nd).1 hx
      simp [hxs]
    · omega
  exact ⟨q2, hmem, hq2le⟩

theorem minPath_minimal {G : Graph} {len s t : Nat} {p : List Nat}
    (Hw : ∀ u v w, G.adj u v = some w → 0 ≤ w)
    (Hdom2 : ∀ u v, (G.adj u v).isSome = true → u < len ∧ v < len)
    (hst : s ≠ t) (h : minPath G len s t = some p) :
    ∀ q, IsWalk G s t q → walkW G p ≤ walkW G q := by
  intro q hq
  obtain ⟨q2, hmem, hq2le⟩ := walk_nodup_mem_dfp Hw Hdom2 hst q hq
  unfold minPath at h
  exact le_trans (pickMin_min G _ p h q2 hmem) hq2le

/-- When the search space is exhausted without reaching the target, no walk
exists at all. -/
theorem no_walk_of_minPath_none {G : Graph} {len s t : Nat}
    (Hw : ∀ u v w, G.adj u v = some w → 0 ≤ w)
    (Hdom2 : ∀ u v, (G.adj u v).isSome = true → u < len ∧ v < len)
    (hst : s ≠ t) (h : minPath G len s t = none) :
    ¬ ∃ q, IsWalk G s t q := by
  rintro ⟨q, hq⟩
  obtain ⟨q2, hmem, _⟩ := walk_nodup_mem_dfp Hw Hdom2 hst q hq
  unfold minPath at h
  rw [pickMin_eq_none h] at hmem
  cases hmem

theorem find_eq_nodeNotFound_start {g : CityGrid} {s t : Nat}
    (h : hasNode (buildGraph g.towers) g.towers.length s = false) :
    find_reliable_path g s t = .nodeNotFound := by
  unfold find_reliable_path
  rw [h]
  simp

theorem find_eq_nodeNotFound_end {g : CityGrid} {s t : Nat}
    (h : hasNode (buildGraph g.towers) g.towers.length t = false) :
    find_reliable_path g s t = .nodeNotFound := by
  unfold find_reliable_path
  rw [h]
  simp

theorem find_eq_noPath {g : CityGrid} {s t : Nat}
    (hs : hasNode (buildGraph g.towers) g.towers.length s = true)
    (ht : hasNode (buildGraph g.towers) g.towers.length t = true) (hst : s ≠ t)
    (hnw : ¬ ∃ p, IsWalk (buildGraph g.towers) s t p) :
    find_reliable_path g s t = .noPath := by
  unfold find_reliable_path
  rw [hs, ht]
  simp only [Bool.and_self, eq_self_iff_true, if_true]
  rw [if_neg hst]
  cases hm : minPath (buildGraph g.towers) g.towers.length s t with
  | none => rfl
  | some p => exact absurd ⟨p, minPath_isWalk hm⟩ hnw

/-- C8 amended: provided tower `i` has at least one incident edge (so it is
a node of the built graph), `find_reliable_path(i, i)` returns the
single-node path `[i]` with no edge traversal; for an isolated tower index
the call instead raises `NodeNotFound` (the endpoint-membership check of
`bidirectional_dijkstra` precedes the `start == end` shortcut). -/
theorem find_reliable_path_self (g : CityGrid) (i : Nat)
    (h : hasNode (buildGraph g.towers) g.towers.length i = true) :
    find_reliable_path g i i = .found [i] := by
  unfold find_reliable_path
  rw [h]
  simp

/-- C8 counterexample: with a single tower the graph has no edges, index 0
is absent from it, and `find_reliable_path(0, 0)` raises `NodeNotFound`
instead of returning `[0]`. -/
theorem find_reliable_path_self_counterexample :
    find_reliable_path singleTowerGrid 0 0 ≠ .found [0] := by decide

/-- Witness for C8 at a concrete input. -/
theorem find_reliable_path_self_witness :
    find_reliable_path pairGrid 0 0 = .found [0] :=
  find_reliable_path_self pairGrid 0 (by decide)

/-- C1 counterexample: on the spec's own 10×10 example with towers
`(3, 4, range 2)` and `(7, 5, range 3)` (squared distance 17 exceeds both
squared ranges, so no edge forms), the call does not return `None`: neither
index is a node of the edge-built graph, so the uncaught `NodeNotFound`
exception propagates instead. -/
theorem find_reliable_path_nopath_counterexample :
    find_reliable_path exampleGrid10 0 1 ≠ .noPath := by decide

/-- C1 amended: `find_reliable_path` returns `None` (`NetworkXNoPath`
caught) exactly in the disconnected-components sense: when both endpoints
are nodes of the built graph (each has an incident edge) and no walk
connects them; when either index is absent from the graph, the
endpoint-membership check of `bidirectional_dijkstra` raises an uncaught
`NodeNotFound` exception instead of returning `None` — in particular the
10×10 two-tower example raises `NodeNotFound`. -/
theorem find_reliable_path_nopath :
    find_reliable_path exampleGrid10 0 1 = .nodeNotFound
    ∧ (∀ (g : CityGrid) (s t : Nat),
        hasNode (buildGraph g.towers) g.towers.length s = false →
          find_reliable_path g s t = .nodeNotFound)
    ∧ (∀ (g : CityGrid) (s t : Nat),
        hasNode (buildGraph g.towers) g.towers.length t = false →
          find_reliable_path g s t = .nodeNotFound)
    ∧ (∀ (g : CityGrid) (s t : Nat),
        hasNode (buildGraph g.towers) g.towers.length s = true →
          hasNode (buildGraph g.towers) g.towers.length t = true → s ≠ t →
            (¬ ∃ p, IsWalk (buildGraph g.towers) s t p) →
              find_reliable_path g s t = .noPath) := by
  refine ⟨by decide, ?_, ?_, ?_⟩
  · intro g s t h
    exact find_eq_nodeNotFound_start h
  · intro g s t h
    exact find_eq_nodeNotFound_end h
  · intro g s t hs ht hst hnw
    exact find_eq_noPath hs ht hst hnw

/-- Witness for C1 at concrete inputs: the 10×10 example and `splitGrid`
(absent endpoint) raise `NodeNotFound`; `twoIslandGrid` (two separate
linked pairs) returns `None`. -/
theorem find_reliable_path_nopath_witness :
    find_reliable_path exampleGrid10 0 1 = .nodeNotFound
    ∧ find_reliable_path splitGrid 0 2 = .nodeNotFound
    ∧ find_reliable_path twoIslandGrid 0 2 = .noPath :=
  ⟨find_reliable_path_nopath.2.1 exampleGrid10 0 1 (by decide),
    find_reliable_path_nopath.2.2.1 splitGrid 0 2 (by decide),
    find_reliable_path_nopath.2.2.2 twoIslandGrid 0 2 (by decide) (by decide)
      (by decide)
      (no_walk_of_minPath_none (fun u v w hw => buildGraph_w_nonneg hw)
        (fun u v hv =>
          buildGraph_adj_bounds (Option.isSome_iff_exists.mp hv).choose_spec)
        (by decide) (by decide))⟩

/-- C9: whenever `find_reliable_path` returns a path, it is a walk between
the two indices in the built graph of minimum total weight among all walks
(the weights, squared distances, are non-negative); in particular for the
3-tower chain A–B–C with A–B and B–C in range but A–C out of range, the
call returns `[A, B, C]` with total weight `dist(A,B) + dist(B,C) = 8`, and
no direct A–C edge even exists. -/
theorem find_reliable_path_shortest :
    (∀ (g : CityGrid) (s t : Nat) (p : List Nat),
      find_reliable_path g s t = .found p →
        IsWalk (buildGraph g.towers) s t p ∧
          ∀ q, IsWalk (buildGraph g.towers) s t q →
            walkW (buildGraph g.towers) p ≤ walkW (buildGraph g.towers) q)
    ∧ find_reliable_path chainGrid 0 2 = .found [0, 1, 2]
    ∧ walkW (buildGraph chainGrid.towers) [0, 1, 2] = 8
    ∧ (buildGraph chainGrid.towers).adj 0 2 = none := by
  refine ⟨?_, by decide, by decide, by decide⟩
  intro g s t p hfound
  have Hw : ∀ u v w, (buildGraph g.towers).adj u v = some w → 0 ≤ w :=
    fun u v w hw => buildGraph_w_nonneg hw
  have Hdom2 : ∀ u v, ((buildGraph g.towers).adj u v).isSome = true →
      u < g.towers.length ∧ v < g.towers.length := by
    intro u v hv
    obtain ⟨w, hw⟩ := Option.isSome_iff_exists.mp hv
    exact buildGraph_adj_bounds hw
  unfold find_reliable_path at hfound
  by_cases hn : (hasNode (buildGraph g.towers) g.towers.length s &&
      hasNode (buildGraph g.towers) g.towers.length t) = true
  · rw [hn] at hfound
    simp only [eq_self_iff_true, if_true] at hfound
    by_cases hst : s = t
    · subst hst
      rw [if_pos rfl] at hfound
      cases hfound
      constructor
      · exact ⟨rfl, rfl, List.chain'_singleton s⟩
      · intro q hq
        have h0 : walkW (buildGraph g.towers) [s] = 0 := rfl
        rw [h0]
        exact walkW_nonneg _ Hw q
    · rw [if_neg hst] at hfound
      cases hm : minPath (buildGraph g.towers) g.towers.length s t with
      | none => rw [hm] at hfound; cases hfound
      | some p0 =>
          rw [hm] at hfound
          cases hfound
          exact ⟨minPath_isWalk hm, minPath_minimal Hw Hdom2 hst hm⟩
  · rw [Bool.not_eq_true _ |>.mp hn] at hfound
    simp at hfound

/-- Witness for C9 at the 3-tower chain. -/
theorem find_reliable_path_shortest_witness :
    IsWalk (buildGraph chainGrid.towers) 0 2 [0, 1, 2]
    ∧ ∀ q, IsWalk (buildGraph chainGrid.towers) 0 2 q →
        walkW (buildGraph chainGrid.towers) [0, 1, 2] ≤
          walkW (buildGraph chainGrid.towers) q :=
  find_reliable_path_shortest.1 chainGrid 0 2 [0, 1, 2] (by decide)
